import Mathlib

/-!
Verification development for the crypto_robot streaming candle-aggregation
engine (`crypto_robot/kline.py`) and position trader (`crypto_robot/trader.py`),
as a shallow embedding in Lean 4.

Modelling conventions:
* Python floats and `Decimal` values are modelled as `ℚ` (exact arithmetic);
  the specification's numeric statements (arithmetic means, profit formulas)
  are about the exact values.
* Python `None` is modelled with `Option`; Python truthiness of a numeric
  value (`x or y`, `if not x`) is modelled by testing against `0`/`none`.
* Tick timestamps are modelled as natural numbers (epoch seconds).
* `collections.deque(maxlen=m)` is modelled as a `List` with the
  eviction-on-append operation `dAppend m`.
* The wall-clock reads (`time.time()`, `datetime.datetime.now()`) that the
  code falls back to are supplied as explicit inputs: `KLineQueue.tick`
  takes the wall-clock time at which the tick is processed (used only by
  `tick_price`'s fallback for a falsy tick timestamp), and the trader
  environments carry a `now` field.
-/

namespace CryptoRobot

/-- Embeds `deque(maxlen)` append: push `x` on the right, evicting from the left
when the result would exceed `maxlen`. -/
def dAppend (maxlen : ℕ) (xs : List α) (x : α) : List α :=
  let ys := xs ++ [x]
  if maxlen < ys.length then ys.drop (ys.length - maxlen) else ys

/-- The last `n` elements of a list (the whole list when `n` exceeds its
length); models the Python slice `[qu[i] for i in range(-n, 0)]`. -/
def lastN (n : ℕ) (xs : List α) : List α :=
  xs.drop (xs.length - n)

/-- Association-list lookup, first match wins (models attribute access
`getattr(self, f'ma_{n}')`). -/
def alookup : List (ℕ × α) → ℕ → Option α
  | [], _ => none
  | (k, v) :: rest, n => if k = n then some v else alookup rest n

/-- Association-list update at a key (models `setattr`-style in-place update
of the per-window moving-average deques). -/
def aupdate (f : α → α) : List (ℕ × α) → ℕ → List (ℕ × α)
  | [], _ => []
  | (k, v) :: rest, n =>
      if k = n then (k, f v) :: aupdate f rest n else (k, v) :: aupdate f rest n

/-- Insert into a strictly sorted list of naturals, dropping duplicates. -/
def insertSorted (n : ℕ) : List ℕ → List ℕ
  | [] => [n]
  | m :: rest =>
      if n < m then n :: m :: rest
      else if n = m then m :: rest
      else m :: insertSorted n rest

/-- Embeds `sorted(set(xs))` from `KLineQueue.__init__`. -/
def sortedDedup (l : List ℕ) : List ℕ :=
  l.foldr insertSorted []

/-- Python truthy-or on an optional price: `a or b` where `a` may be `None`
and `0`/`0.0` is falsy. -/
def pyOr (a : Option ℚ) (b : ℚ) : ℚ :=
  match a with
  | none => b
  | some x => if x = 0 then b else x

/-- Python truthy-or on two prices: `a or b` with `0` falsy. -/
def pyOrQ (a b : ℚ) : ℚ :=
  if a = 0 then b else a

/-! ## common.py -/

/-- Embeds `common.LongOrShort`. -/
inductive LongOrShort
  | LONG
  | SHORT
deriving DecidableEq, Repr

/-- Embeds `common.Tick` (an immutable price sample).  The fields `date`,
`event_timestamp`, `amount` and `raw_data` are never read by the candle
engine or the trader and are omitted; `timestamp` is epoch seconds. -/
structure Tick where
  timestamp : ℕ
  open_ : ℚ
  close : ℚ
  high : ℚ
  low : ℚ
  vol : ℚ
  is_last_one : Bool
deriving DecidableEq, Repr

/-- Embeds `common.KLinePeriod`: the supported candle bucket widths. -/
inductive KLinePeriod
  | MIN_1
  | MIN_3
  | MIN_5
  | MIN_15
  | MIN_30
  | HOUR_1
deriving DecidableEq, Repr

/-- Width of a bucket in seconds. -/
def KLinePeriod.seconds : KLinePeriod → ℕ
  | .MIN_1 => 60
  | .MIN_3 => 180
  | .MIN_5 => 300
  | .MIN_15 => 900
  | .MIN_30 => 1800
  | .HOUR_1 => 3600

/-- Embeds `KLinePeriod.auto_convert_timestamp`: truncate a timestamp to the start
of its bucket.  The source truncates via `datetime` fields (minute to the
nearest lower multiple of N for N-minute periods, hour for 1-hour); since all
supported periods divide one hour, this equals flooring the epoch timestamp
to a multiple of the period width. -/
def KLinePeriod.auto_convert_timestamp (timestamp : ℕ) (period : KLinePeriod) : ℕ :=
  timestamp - timestamp % period.seconds

/-- Embeds `exchanges.binance.OrderStatus`. -/
inductive OrderStatus
  | NEW
  | PARTIALLY_FILLED
  | FILLED
  | CANCELED
  | EXPIRED
  | REJECTED
deriving DecidableEq, Repr

/-- Embeds `common.OrderInExchange`.  Numeric fields default to `0.0` in the source
(`attr.ib(factory=float)`); `order_id` and `status` default to `None`. -/
structure OrderInExchange where
  order_id : Option ℕ
  volume : ℚ
  price : ℚ
  lever_rate : ℕ
  trade_volume : ℚ
  trade_avg_price : ℚ
  trade_turnover : ℚ
  fee : ℚ
  status : Option OrderStatus
deriving DecidableEq, Repr

/-- Embeds `OrderInExchange(order_id=i, volume=v, price=p)`: all other fields at
their defaults. -/
def OrderInExchange.mkDefault (order_id : Option ℕ) (volume : ℚ) (price : ℚ) :
    OrderInExchange :=
  ⟨order_id, volume, price, 0, 0, 0, 0, 0, none⟩

/-- The exception kinds distinguished by `Trader.open`'s handler: the
exchange's "insufficient margin" rejection (`InsufficientMarginAvailable`
from `exception.py`) versus every other exception. -/
inductive PlaceErr
  | insufficientMargin
  | otherError
deriving DecidableEq, Repr

/-- The loop body of `common.auto_retry` for the bounded case
(`infinite=False`): attempt `i`, then `i+1`, …, for `fuel` attempts in
total; return the first success, else raise the last exception
(`.error none` is the degenerate `raise None` that the source would hit with
`retry_count=0`; it never occurs for the retry counts used). -/
def auto_retryAux (outcomes : ℕ → Except E A) : ℕ → ℕ → Option E → Except (Option E) A
  | 0, _, last => .error last
  | fuel + 1, i, _ =>
      match outcomes i with
      | .ok a => .ok a
      | .error e => auto_retryAux outcomes fuel (i + 1) (some e)

/-- Embeds `common.auto_retry(future_fn, retry_count=n)`: the outcome of attempt `i`
of the retried awaitable is supplied by the environment function
`outcomes`. -/
def auto_retry (outcomes : ℕ → Except E A) (retry_count : ℕ) : Except (Option E) A :=
  auto_retryAux outcomes retry_count 0 none

/-! ## kline.py -/

/-- Embeds `kline.MACD`: one (dif, dea, hist) triple. -/
structure MACD where
  dif : ℚ
  dea : ℚ
  hist : ℚ
deriving DecidableEq, Repr

/-- Embeds `kline.KLine`: one candle.  `last_update_datetime` (wall clock, never
read by the engine) is omitted; the `period` class attribute of the
`KLine1Min`… subclasses is passed to `tick_price` explicitly.  In the source
`is_last_one`'s attrs default is the (truthy) `bool` class object; it is
overwritten by the first `tick_price` before the candle is ever stored. -/
structure KLine where
  open_ : Option ℚ
  close : Option ℚ
  high : Option ℚ
  low : Option ℚ
  vol : Option ℚ
  period_date : Option ℕ
  is_last_one : Bool
deriving DecidableEq, Repr

/-- A freshly constructed `KLine()` (all attrs at their `None` defaults). -/
def KLine.new : KLine :=
  ⟨none, none, none, none, none, none, true⟩

/-- Embeds `KLine.tick_price(tick=tick)` — the tick path, the only one exercised by
`KLineQueue`.  Per `if tick is not None and tick.timestamp:` the bucket time
is computed from the tick's timestamp when it is truthy, and from the wall
clock (`now or time.time()`, with `now=None` in every `KLineQueue` call)
when it is falsy (zero); the wall clock is the explicit `wall_clock` input.
A mismatched bucket (`self.period_date and self.period_date !=
period_date`) is a logged no-op; otherwise the candle's fields are updated
from the tick, `open` staying fixed once set to a truthy value
(`self.open = self.open or tick.open`). -/
def KLine.tick_price (k : KLine) (t : Tick) (period : KLinePeriod) (wall_clock : ℕ) : KLine :=
  let now := if t.timestamp ≠ 0 then t.timestamp else wall_clock
  let period_date := KLinePeriod.auto_convert_timestamp now period
  match k.period_date with
  | some d =>
      if d ≠ period_date then k
      else
        { k with
          period_date := some d
          open_ := some (pyOr k.open_ t.open_)
          close := some t.close
          high := some t.high
          low := some t.low
          vol := some t.vol
          is_last_one := t.is_last_one }
  | none =>
      { k with
        period_date := some period_date
        open_ := some (pyOr k.open_ t.open_)
        close := some t.close
        high := some t.high
        low := some t.low
        vol := some t.vol
        is_last_one := t.is_last_one }

/-- Exponential moving average series with SMA seeding: the values at
indices `p-1 … len-1` of the input. -/
def emaList (p : ℕ) (xs : List ℚ) : List ℚ :=
  if p = 0 ∨ xs.length < p then []
  else (xs.drop p).scanl (fun prev x => prev + 2 / (p + 1) * (x - prev)) ((xs.take p).sum / p)

/-- Modelled from the spec: the source computes MACD with the external
`talib.MACD` routine, whose code is not part of this repository.  Following
the spec's words — "recompute the full MACD triple … using the standard
exponential-moving-average-of-difference algorithm" — the triple is
(dif, dea, hist) with dif the difference of the fast and slow EMAs of the
closes, dea the signal-period EMA of the dif series and hist their
difference; `none` stands for the all-NaN warm-up outputs ("skip … if any
component is not-a-number … during indicator warm-up"). -/
def macdTriple (fast slow signal : ℕ) (xs : List ℚ) : Option MACD :=
  let fastE := emaList fast xs
  let slowE := emaList slow xs
  let dif := ((fastE.drop (fastE.length - slowE.length)).zip slowE).map
    (fun ab => ab.1 - ab.2)
  let dea := emaList signal dif
  match dif.getLast?, dea.getLast? with
  | some dl, some el => some ⟨dl, el, dl - el⟩
  | _, _ => none

/-- The raw-tick ring-buffer capacity chosen in `KLineQueue.__init__`
(`60*minutes*5` per period). -/
def bufferMaxlen : KLinePeriod → ℕ
  | .MIN_1 => 300
  | .MIN_3 => 900
  | .MIN_5 => 1500
  | .MIN_15 => 4500
  | .MIN_30 => 9000
  | .HOUR_1 => 18000

/-- Embeds `kline.KLineQueue`: the per-(coin, period) candle series.  The dynamic
attributes `ma_{n}` / `ma_r_{n}` (one bounded deque per requested window)
are modelled as association lists keyed by the window size. -/
structure KLineQueue where
  period : KLinePeriod
  ma_list : List ℕ
  tick_buffer : List Tick
  buffer_maxlen : ℕ
  queue : List KLine
  maxlen : ℕ
  ma_queues : List (ℕ × List ℚ)
  ma_r_queues : List (ℕ × List ℚ)
  macd_fastperiod : ℕ
  macd_slowperiod : ℕ
  macd_signalperiod : ℕ
  macd : List MACD
deriving DecidableEq, Repr

/-- Embeds `KLineQueue.__init__(period, ma_list, maxlen)`; the source defaults are
`ma_list=[20, 40, 60]` and `maxlen=60*24*30`. -/
def KLineQueue.init (period : KLinePeriod) (ma_list : List ℕ) (maxlen : ℕ) : KLineQueue :=
  let mas := sortedDedup ma_list
  { period := period
    ma_list := mas
    tick_buffer := []
    buffer_maxlen := bufferMaxlen period
    queue := []
    maxlen := maxlen
    ma_queues := mas.map (fun n => (n, []))
    ma_r_queues := mas.map (fun n => (n, []))
    macd_fastperiod := 20
    macd_slowperiod := 40
    macd_signalperiod := 15
    macd := [] }

/-- Embeds `KLineQueue.clear()`: clears only the candle queue and the raw-tick ring
buffer; the moving-average and MACD deques are left untouched. -/
def KLineQueue.clear (s : KLineQueue) : KLineQueue :=
  { s with queue := [], tick_buffer := [] }

/-- The trailing mean of the last `n` candles' close prices:
`sum([queue[i].close for i in range(-n, 0)])/n`.  Stored candles always
carry a close price (`Option.getD 0` is never the default on reachable
states). -/
def maValueClose (queue : List KLine) (n : ℕ) : ℚ :=
  ((lastN n queue).map (fun k => k.close.getD 0)).sum / n

/-- The trailing mean of the last `n` candles' open prices (the reverse
series). -/
def maValueOpen (queue : List KLine) (n : ℕ) : ℚ :=
  ((lastN n queue).map (fun k => k.open_.getD 0)).sum / n

/-- Embeds `KLineQueue._update_ma(ma, new_created_kline)`: once at least `ma`
candles exist, recompute the trailing means and append them (on rollover) or
overwrite the most recent entry (`deque[-1] = value`, modelled as
`dropLast ++ [value]`). -/
def KLineQueue.update_ma (s : KLineQueue) (ma : ℕ) (new_created_kline : Bool) : KLineQueue :=
  if s.queue.length < ma then s
  else
    let new_ma_value := maValueClose s.queue ma
    let new_ma_r_value := maValueOpen s.queue ma
    { s with
      ma_queues := aupdate
        (fun q => if new_created_kline then dAppend s.maxlen q new_ma_value
                  else q.dropLast ++ [new_ma_value]) s.ma_queues ma
      ma_r_queues := aupdate
        (fun q => if new_created_kline then dAppend s.maxlen q new_ma_r_value
                  else q.dropLast ++ [new_ma_r_value]) s.ma_r_queues ma }

/-- The function `_update_ma` applies to the window-`ma` close-price deque. -/
def maStep (queue : List KLine) (maxlen ma : ℕ) (new_created_kline : Bool)
    (q : List ℚ) : List ℚ :=
  if queue.length < ma then q
  else if new_created_kline then dAppend maxlen q (maValueClose queue ma)
  else q.dropLast ++ [maValueClose queue ma]

/-- The function `_update_ma` applies to the window-`ma` open-price deque. -/
def maStepR (queue : List KLine) (maxlen ma : ℕ) (new_created_kline : Bool)
    (q : List ℚ) : List ℚ :=
  if queue.length < ma then q
  else if new_created_kline then dAppend maxlen q (maValueOpen queue ma)
  else q.dropLast ++ [maValueOpen queue ma]

/-- The moving-average fold of `KLineQueue.tick`. -/
def maFold (c : Bool) (L : List ℕ) (s : KLineQueue) : KLineQueue :=
  L.foldl (fun st n => st.update_ma n c) s

/-- Embeds `KLineQueue._update_macd(new_created_kline)`: once the candle count
reaches `round(2*max(fastperiod, slowperiod))`, recompute the MACD triple of
the trailing closes; skip when any component is NaN, else append on rollover
or overwrite the last entry. -/
def KLineQueue.update_macd (s : KLineQueue) (new_created_kline : Bool) : KLineQueue :=
  let check_price_count := 2 * max s.macd_fastperiod s.macd_slowperiod
  if s.queue.length < check_price_count then s
  else
    match macdTriple s.macd_fastperiod s.macd_slowperiod s.macd_signalperiod
        ((lastN check_price_count s.queue).map (fun k => k.close.getD 0)) with
    | none => s
    | some m =>
        { s with
          macd := if new_created_kline then dAppend s.maxlen s.macd m
                  else s.macd.dropLast ++ [m] }

/-- The tail of `KLineQueue.tick` after the queue mutation: append the tick
to the ring buffer, then update every configured moving average and the
MACD. -/
def KLineQueue.after_queue_update (s : KLineQueue) (q : List KLine) (t : Tick)
    (new_created_kline : Bool) : KLineQueue :=
  let s1 := { s with queue := q, tick_buffer := dAppend s.buffer_maxlen s.tick_buffer t }
  (maFold new_created_kline s1.ma_list s1).update_macd new_created_kline

/-- Embeds `KLineQueue.tick(tick)`: bucket the tick (directly from its raw
timestamp, as on kline.py lines 265/270); roll over to a new candle when the
bucket starts strictly after the last stored candle's (or the series is
empty), update the last candle in place on an equal bucket, and log-and-
discard an earlier (out-of-order) tick *before* the ring-buffer append.
`wall_clock` is the wall-clock time at which the tick is processed, consumed
only by `tick_price`'s falsy-timestamp fallback.  A stored candle always
carries a bucket time; the `none` fallback mirrors the `TypeError` the
source would raise comparing against `None`. -/
def KLineQueue.tick (s : KLineQueue) (t : Tick) (wall_clock : ℕ) : KLineQueue :=
  let bucket := KLinePeriod.auto_convert_timestamp t.timestamp s.period
  match s.queue.getLast? with
  | none =>
      s.after_queue_update
        (dAppend s.maxlen s.queue (KLine.tick_price KLine.new t s.period wall_clock)) t true
  | some last_kline =>
      match last_kline.period_date with
      | none => s
      | some last_period_date =>
          if last_period_date < bucket then
            s.after_queue_update
              (dAppend s.maxlen s.queue (KLine.tick_price KLine.new t s.period wall_clock))
              t true
          else if bucket = last_period_date then
            s.after_queue_update
              (s.queue.dropLast ++ [last_kline.tick_price t s.period wall_clock]) t false
          else
            s

/-- The states a `KLineQueue` can be in: freshly constructed, or the result
of ingesting one more tick. -/
inductive KLineQueue.Reachable : KLineQueue → Prop
  | init (period : KLinePeriod) (ma_list : List ℕ) (maxlen : ℕ) :
      Reachable (KLineQueue.init period ma_list maxlen)
  | tick {s : KLineQueue} (t : Tick) (wall_clock : ℕ) :
      Reachable s → Reachable (s.tick t wall_clock)

/-- Embeds `kline.KLineQueueContainer`: one `KLineQueue` per configured period (the
coin and its exchange-API handle play no role in the embedded operations).
`kline_queue_dict` is the assoc list built by `__init__` from `periods`. -/
structure KLineQueueContainer where
  periods : List KLinePeriod
  kline_queue_dict : List (KLinePeriod × KLineQueue)
  called_history : Bool
deriving DecidableEq, Repr

/-- Embeds `KLineQueueContainer.__init__(coin, periods)` (each period's queue built
with the `KLineQueue` defaults `ma_list=[20,40,60]`, `maxlen=60*24*30`). -/
def KLineQueueContainer.init (periods : List KLinePeriod) : KLineQueueContainer :=
  { periods := periods
    kline_queue_dict := periods.map (fun p => (p, KLineQueue.init p [20, 40, 60] 43200))
    called_history := false }

/-- Dictionary lookup, as in `get_by_period`. -/
def KLineQueueContainer.get_by_period (c : KLineQueueContainer) (period : KLinePeriod) :
    Option KLineQueue :=
  (c.kline_queue_dict.find? (fun pq => pq.1 = period)).map (·.2)

/-- Ingest a list of historical ticks in order into one queue; each tick is
paired with the wall-clock time at which the loop iteration processes it. -/
def ingestAll (q : KLineQueue) (ticks : List (Tick × ℕ)) : KLineQueue :=
  ticks.foldl (fun st pr => st.tick pr.1 pr.2) q

/-- Update the queue stored for one period (the `self.tick(tick,
period=period)` routing inside `tick_history`, iterated over the period's
fetched ticks). -/
def KLineQueueContainer.ingestPeriod (c : KLineQueueContainer) (period : KLinePeriod)
    (ticks : List (Tick × ℕ)) : KLineQueueContainer :=
  { c with
    kline_queue_dict := c.kline_queue_dict.map
      (fun pq => if pq.1 = period then (pq.1, ingestAll pq.2 ticks) else pq) }

/-- The `for period in self.periods` loop of `tick_history`: fetch each
period's history (outcome supplied by the environment `hist`) and ingest it;
on the first failure stop with the partially-updated container. -/
def tick_historyGo (hist : KLinePeriod → Except Unit (List (Tick × ℕ))) :
    List KLinePeriod → KLineQueueContainer → Except KLineQueueContainer KLineQueueContainer
  | [], c => .ok c
  | p :: rest, c =>
      match hist p with
      | .ok ticks => tick_historyGo hist rest (c.ingestPeriod p ticks)
      | .error _ => .error c

/-- Embeds `KLineQueueContainer.tick_history()`: a no-op after a successful call;
otherwise ingest every period's history in order, setting `called_history`
on success; on any failure call `KLineQueue.clear` on every period's queue
and re-raise (the returned flag is `false` exactly when the exception
propagates). -/
def KLineQueueContainer.tick_history (c : KLineQueueContainer)
    (hist : KLinePeriod → Except Unit (List (Tick × ℕ))) : KLineQueueContainer × Bool :=
  if c.called_history then (c, true)
  else
    match tick_historyGo hist c.periods c with
    | .ok c' => ({ c' with called_history := true }, true)
    | .error c' =>
        ({ c' with kline_queue_dict := c'.kline_queue_dict.map (fun pq => (pq.1, pq.2.clear)) },
         false)

/-! ## trader.py -/

/-- The tags of the `Notification.send_catching_exc` calls reached by
`Trader.open` / `Trader.close` (the message text is irrelevant to the
claims; what matters is whether a notification is sent). -/
inductive Notice
  | open_order_error
  | open_get_order_error
  | order_canceled
  | order_not_filled
  | db_insert_error
  | opened
  | close_volume_error
  | close_order_error
  | close_get_order_error
  | close_db_error
  | closed
deriving DecidableEq, Repr

/-- Embeds `trader.Trader`: the per-coin position state machine.  `coin`,
`exchange_cls` and `lever_rate` are fixed per instance and do not appear in
any embedded transition (the balance-to-size conversion they feed is an
environment input, see `OpenEnv.volume`). -/
structure Trader where
  trading : Bool
  trade_count : ℕ
  consider_pseudo_trading : Bool
  pseudo_trading : Bool
  long_or_short : Option LongOrShort
  balance_before_open : ℚ
  open_price : Option ℚ
  open_volume : Option ℚ
  open_time : Option ℕ
  close_price : Option ℚ
  close_time : Option ℕ
  profit : Option ℚ
  write_to_db : Bool
  db_id : Option ℕ
  max_pseudo_trading_count : ℕ
  stop_trade : Bool
  re_trade_until : Option ℕ
deriving DecidableEq, Repr

/-- The environment of one `Trader.open` call: the result of the
coin-specific `convert_balance_to_volume` lot-sizing (`0` models a size that
rounds to zero — Python falsy), the per-attempt outcomes of the retried
order placement and order poll, the database insert outcome, and the wall
clock. -/
structure OpenEnv where
  volume : ℚ
  place : ℕ → Except PlaceErr ℕ
  getOrder : ℕ → Except Unit (Option OrderInExchange)
  dbInsert : Except Unit ℕ
  now : ℕ

/-- The result of a trader operation: the new trader state, the Python
return value (`none` models `return None`), and the notifications sent. -/
structure TraderOut where
  trader : Trader
  ret : Option Bool
  notices : List Notice
deriving DecidableEq, Repr

/-- Embeds `Trader.pseudo_open`: simulated open — set the position fields without
contacting the exchange. -/
def Trader.pseudo_open (tr : Trader) (long_or_short : LongOrShort) (current_price : ℚ)
    (now : ℕ) : Trader :=
  { tr with
    trading := true
    pseudo_trading := true
    trade_count := tr.trade_count + 1
    long_or_short := some long_or_short
    open_price := some current_price
    open_time := some now }

/-- Embeds `Trader.auto_set_profit`: long = `(close-open)/open`, short =
`(open-close)/open`; `None` (and `0`, Python falsy) prices leave the profit
unset. -/
def Trader.auto_set_profit (tr : Trader) : Trader :=
  let tr0 := { tr with profit := none }
  match tr.open_price, tr.close_price with
  | some o, some c =>
      if o = 0 ∨ c = 0 then tr0
      else
        match tr.long_or_short with
        | some .LONG => { tr0 with profit := some ((c - o) / o) }
        | some .SHORT => { tr0 with profit := some ((o - c) / o) }
        | none => tr0
  | _, _ => tr0

/-- Embeds `Trader.open(long_or_short, current_price)`.  Control flow of the
source, in order: reject on non-positive balance (`return`, i.e. `None`);
reject when the converted size is falsy; pseudo-open while within the
startup pseudo-trading budget; set `self.long_or_short`; place the order
under `auto_retry(retry_count=5)` — an `InsufficientMarginAvailable`
surfacing from the retries is logged and returns `None` *without* a
notification, any other placement error is notified and returns `False`;
poll the order under `auto_retry(retry_count=10)` (errors notified, return
`None`); a cancelled (`None`) or not-fully-filled order is notified and
returns `False`; else optionally insert into the database (errors swallowed
with a notification), set the position fields and return `True`. -/
def Trader.open_ (tr : Trader) (long_or_short : LongOrShort) (current_price : ℚ)
    (env : OpenEnv) : TraderOut :=
  if tr.balance_before_open ≤ 0 then ⟨tr, none, []⟩
  else if env.volume = 0 then ⟨tr, none, []⟩
  else if tr.consider_pseudo_trading ∧ tr.trade_count < tr.max_pseudo_trading_count then
    ⟨tr.pseudo_open long_or_short current_price env.now, some true, []⟩
  else
    let tr1 := { tr with long_or_short := some long_or_short }
    match auto_retry env.place 5 with
    | .error (some .insufficientMargin) => ⟨tr1, none, []⟩
    | .error _ => ⟨tr1, some false, [.open_order_error]⟩
    | .ok _order_id =>
        match auto_retry env.getOrder 10 with
        | .error _ => ⟨tr1, none, [.open_get_order_error]⟩
        | .ok none => ⟨tr1, some false, [.order_canceled]⟩
        | .ok (some order) =>
            if order.status ≠ some .FILLED then ⟨tr1, some false, [.order_not_filled]⟩
            else
              let (tr2, db_notices) :=
                if tr1.write_to_db then
                  match env.dbInsert with
                  | .ok inserted_id => ({ tr1 with db_id := some inserted_id }, [])
                  | .error _ => (tr1, [Notice.db_insert_error])
                else (tr1, [])
              ⟨{ tr2 with
                  trading := true
                  trade_count := tr2.trade_count + 1
                  open_price := some (pyOrQ order.trade_avg_price current_price)
                  open_volume := some (pyOrQ order.trade_volume (pyOrQ order.volume env.volume))
                  open_time := some env.now },
               some true, db_notices ++ [.opened]⟩

/-- Embeds `Trader.pseudo_close`: simulated close — compute profit, clear the
position fields. -/
def Trader.pseudo_close (tr : Trader) (current_price : ℚ) (now : ℕ) : Trader :=
  let tr1 := { tr with close_price := some current_price, close_time := some now }
  let tr2 := tr1.auto_set_profit
  { tr2 with
    trading := false
    pseudo_trading := false
    open_price := none
    open_volume := none
    open_time := none
    db_id := none }

/-- The environment of one `Trader.close` call.  The closing order
placement may legitimately yield no order id; `new_balance` is the balance
eventually returned by the unbounded-retry account query
(`auto_retry(..., infinite=True)` loops until a success). -/
structure CloseEnv where
  place : ℕ → Except Unit (Option ℕ)
  getOrder : ℕ → Except Unit OrderInExchange
  dbUpdate : Except Unit Unit
  new_balance : ℚ
  now : ℕ

/-- Embeds `Trader.close(current_price)`.  Pseudo mode closes locally; a falsy
`open_volume` is a notified no-op returning `False`; a placement error is a
notified no-op returning `False`; a failing order read-back is notified but
does not block the close; then the balance is refreshed, the database
optionally updated (errors swallowed with a notification), the profit
computed and the position fields cleared. -/
def Trader.close (tr : Trader) (current_price : ℚ) (env : CloseEnv) : TraderOut :=
  if tr.consider_pseudo_trading ∧ tr.pseudo_trading then
    ⟨tr.pseudo_close current_price env.now, some true, []⟩
  else if tr.open_volume = none ∨ tr.open_volume = some 0 then
    ⟨tr, some false, [.close_volume_error]⟩
  else
    match auto_retry env.place 3 with
    | .error _ => ⟨tr, some false, [.close_order_error]⟩
    | .ok order_id =>
        let order0 := OrderInExchange.mkDefault order_id 0 current_price
        let (order, poll_notices) :=
          match order_id with
          | some _ =>
              match auto_retry env.getOrder 3 with
              | .ok o => (o, ([] : List Notice))
              | .error _ => (order0, [Notice.close_get_order_error])
          | none => (order0, [])
        let db_notices :=
          if tr.write_to_db ∧ tr.db_id.isSome then
            match env.dbUpdate with
            | .ok _ => ([] : List Notice)
            | .error _ => [Notice.close_db_error]
          else []
        let tr1 := { tr with
          close_price := some (pyOrQ order.trade_avg_price order.price)
          close_time := some env.now }
        let tr2 := tr1.auto_set_profit
        ⟨{ tr2 with
            trading := false
            balance_before_open := env.new_balance
            open_price := none
            open_volume := none
            open_time := none
            db_id := none },
         some true, poll_notices ++ db_notices ++ [.closed]⟩

/-! ## backtesting/backtesting.py -/

namespace Backtesting

/-- Embeds `backtesting.Order`. -/
structure Order where
  long_or_short : Option LongOrShort
  open_price : ℚ
  close_price : ℚ
  open_time : Option ℕ
  close_time : Option ℕ
  closed : Bool
deriving DecidableEq, Repr

/-- Embeds `Order.profit`: `None` unless closed with a truthy side and truthy open
and close prices; long = `(close-open)/open`, short = `(open-close)/open`
(computed exactly with `Decimal` in the source). -/
def Order.profit (o : Order) : Option ℚ :=
  if ¬o.closed ∨ o.long_or_short = none ∨ o.open_price = 0 ∨ o.close_price = 0 then none
  else
    match o.long_or_short with
    | some .LONG => some ((o.close_price - o.open_price) / o.open_price)
    | some .SHORT => some ((o.open_price - o.close_price) / o.open_price)
    | none => none

/-- Embeds `backtesting.Trade`. -/
structure Trade where
  balance : ℚ
  orders : List Order
deriving DecidableEq, Repr

/-- Embeds `Trade.__init__(balance)`: `self.balance = balance or 10000`. -/
def Trade.init (balance : Option ℚ) : Trade :=
  ⟨match balance with
   | none => 10000
   | some b => if b = 0 then 10000 else b, []⟩

/-- Embeds `Trade.open`: append a new open order. -/
def Trade.open_ (t : Trade) (long_or_short : LongOrShort) (current_price : ℚ)
    (open_time : Option ℕ) : Trade :=
  { t with orders := t.orders ++ [⟨some long_or_short, current_price, 0, open_time, none, false⟩] }

/-- Embeds `Trade.close`: close the most recent order if it matches the requested
side, is still open and has a truthy open price. -/
def Trade.close (t : Trade) (current_price : ℚ) (long_or_short : Option LongOrShort)
    (close_time : Option ℕ) : Trade :=
  match t.orders.getLast? with
  | none => t
  | some o =>
      if (match long_or_short with
          | some s => decide (o.long_or_short ≠ some s)
          | none => false) then t
      else if o.closed then t
      else if o.open_price = 0 then t
      else
        { t with
          orders := t.orders.dropLast ++
            [{ o with close_price := current_price, close_time := close_time, closed := true }] }

/-- Embeds `Trade.final_balance`: multiply the balance by `1 + profit` for every
order with a computed profit. -/
def Trade.final_balance (t : Trade) : ℚ :=
  t.orders.foldl
    (fun b o =>
      match o.profit with
      | some p => b * (1 + p)
      | none => b) t.balance

end Backtesting

/-! ## Concrete inputs used by witnesses and counterexamples -/

/-- Three in-order ticks for a 1-minute series (the `KLineQueue.tick`
doctest: 15:43:01, 15:43:10, 15:50:30 → two candles, three buffered
ticks). -/
def tick1 : Tick := ⟨55381, 4, 5, 5, 4, 10, false⟩

def tick2 : Tick := ⟨55390, 5, 9, 9, 5, 10, false⟩

def tick3 : Tick := ⟨55830, 9, 20, 20, 9, 10, false⟩

/-- An out-of-order tick: its bucket (60) is earlier than the last stored
candle's bucket (55800). -/
def tickOld : Tick := ⟨100, 6, 7, 7, 6, 10, false⟩

/-- A tick falling in the same bucket as `tick3`. -/
def tick3b : Tick := ⟨55835, 9, 21, 21, 9, 10, false⟩

/-- The 1-minute series after the three doctest ticks (wall clock at the
three processing instants: a second after each tick's timestamp). -/
def queue3 : KLineQueue :=
  (((KLineQueue.init .MIN_1 [20, 40, 60] 43200).tick tick1 55382).tick tick2
    55391).tick tick3 55831

/-- A 1-minute series with a single window of 2, after two one-minute ticks
with truthy timestamps 60 and 120. -/
def queueMa2 : KLineQueue :=
  ((KLineQueue.init .MIN_1 [2] 43200).tick ⟨60, 1, 3, 3, 1, 10, false⟩ 61).tick
    ⟨120, 3, 5, 5, 3, 10, false⟩ 121

/-- Eighty identical candles in consecutive 1-minute buckets. -/
def candles80 : List KLine :=
  (List.range 80).map (fun i => ⟨some 1, some 1, some 1, some 1, some 1, some (60 * i), false⟩)

/-- A series holding eighty candles (no moving-average windows, so that the
MACD step is isolated). -/
def queue80 : KLineQueue :=
  { KLineQueue.init .MIN_1 [] 43200 with queue := candles80 }

/-- A tick opening bucket 4800, strictly after `queue80`'s last bucket
4740. -/
def tick81 : Tick := ⟨4800, 1, 1, 1, 1, 10, false⟩

/-- A tick in `queue80`'s last bucket 4740. -/
def tick80b : Tick := ⟨4750, 1, 1, 1, 1, 10, false⟩

/-- Twenty identical historical ticks with truthy timestamps in consecutive
1-minute buckets, each paired with the wall-clock time at which the
bootstrap loop processes it. -/
def ticks20 : List (Tick × ℕ) :=
  (List.range 20).map (fun i => (⟨60 * (i + 1), 1, 1, 1, 1, 1, false⟩, 1500))

/-- A container bootstrapping two periods. -/
def container2 : KLineQueueContainer :=
  KLineQueueContainer.init [.MIN_1, .MIN_5]

/-- A bootstrap environment: the 1-minute history fetch succeeds with twenty
ticks, the 5-minute fetch fails. -/
def hist2 : KLinePeriod → Except Unit (List (Tick × ℕ))
  | .MIN_1 => .ok ticks20
  | _ => .error ()

/-- A flat trader past the pseudo-trading budget, with balance 100. -/
def trader0 : Trader :=
  ⟨false, 1, false, false, none, 100, none, none, none, none, none, none, false, none, 1,
   false, none⟩

/-- A trader that is already in an open position (`trading=True`). -/
def traderOpen : Trader :=
  ⟨true, 3, false, false, some .SHORT, 100, some 50, some 2, some 10, none, none, none, false,
   none, 1, false, none⟩

/-- A fully filled exchange order. -/
def orderFilled : OrderInExchange :=
  ⟨some 7, 1, 10, 0, 1, 10, 0, 0, some .FILLED⟩

/-- An `open` environment whose order placement succeeds at once and whose
order poll reports a full fill. -/
def envOk : OpenEnv :=
  ⟨1, fun _ => .ok 7, fun _ => .ok (some orderFilled), .error (), 1000⟩

/-- An `open` environment whose first placement attempt raises
`InsufficientMarginAvailable` and whose second succeeds. -/
def envMarginOnce : OpenEnv :=
  ⟨1, fun i => if i = 0 then .error .insufficientMargin else .ok 7,
   fun _ => .ok (some orderFilled), .error (), 1000⟩

/-- An `open` environment whose every placement attempt raises
`InsufficientMarginAvailable`. -/
def envMarginAlways : OpenEnv :=
  ⟨1, fun _ => .error .insufficientMargin, fun _ => .ok (some orderFilled), .error (), 1000⟩

/-- An `open` environment whose every placement attempt raises a generic
exchange error. -/
def envOtherAlways : OpenEnv :=
  ⟨1, fun _ => .error .otherError, fun _ => .ok (some orderFilled), .error (), 1000⟩

/-- A benign `close` environment. -/
def closeEnv0 : CloseEnv :=
  ⟨fun _ => .ok (some 3), fun _ => .ok orderFilled, .ok (), 50, 99⟩

/-- A trader holding an open long position from 100 closed at 110. -/
def traderLong : Trader :=
  ⟨true, 1, false, false, some .LONG, 10000, some 100, some 1, some 10, some 110, some 20,
   none, false, none, 1, false, none⟩

/-- Variant of `trader0` with a zero balance. -/
def traderZeroBal : Trader :=
  { trader0 with balance_before_open := 0 }

/-- Variant of `envOk` with a lot size that rounds to zero. -/
def envVolZero : OpenEnv :=
  { envOk with volume := 0 }

/-- Variant of `container2` with the bootstrap flag already set. -/
def containerDone : KLineQueueContainer :=
  { container2 with called_history := true }

/-! ## Lemmas about the list helpers -/

theorem dAppend_eq_of_pos (hm : 0 < m) (xs : List α) (x : α) :
    dAppend m xs x = xs.drop (xs.length + 1 - m) ++ [x] := by
  simp only [dAppend]
  split
  · next h =>
      simp only [List.length_append, List.length_cons, List.length_nil] at h ⊢
      rw [List.drop_append_of_le_length (by omega)]
  · next h =>
      simp only [List.length_append, List.length_cons, List.length_nil] at h
      have h0 : xs.length + 1 - m = 0 := by omega
      rw [h0, List.drop_zero]

theorem dAppend_zero (xs : List α) (x : α) : dAppend 0 xs x = [] := by
  simp [dAppend]

theorem dAppend_getLast? (hm : 0 < m) (xs : List α) (x : α) :
    (dAppend m xs x).getLast? = some x := by
  rw [dAppend_eq_of_pos hm, List.getLast?_concat]

theorem dAppend_length (m : ℕ) (xs : List α) (x : α) :
    (dAppend m xs x).length = min (xs.length + 1) m := by
  simp only [dAppend]
  split
  · next h =>
      simp only [List.length_drop, List.length_append, List.length_cons,
        List.length_nil] at h ⊢
      omega
  · next h =>
      simp only [List.length_append, List.length_cons, List.length_nil] at h ⊢
      omega

theorem dAppend_length_le (m : ℕ) (xs : List α) (x : α) :
    (dAppend m xs x).length ≤ m := by
  rw [dAppend_length]; omega

theorem length_le_dAppend_length (h : xs.length ≤ m) (x : α) :
    xs.length ≤ (dAppend m xs x).length := by
  rw [dAppend_length]; omega

theorem dAppend_sublist (m : ℕ) (xs : List α) (x : α) :
    (dAppend m xs x).Sublist (xs ++ [x]) := by
  simp only [dAppend]
  split
  · exact List.drop_sublist _ _
  · exact List.Sublist.refl _

theorem dAppend_pairwise {R : α → α → Prop} (h : (xs ++ [x]).Pairwise R) :
    (dAppend m xs x).Pairwise R :=
  List.Pairwise.sublist (dAppend_sublist m xs x) h

theorem mem_dAppend (h : a ∈ dAppend m xs x) : a ∈ xs ++ [x] :=
  (dAppend_sublist m xs x).subset h

theorem map_dAppend (f : α → β) (m : ℕ) (xs : List α) (x : α) :
    (dAppend m xs x).map f = dAppend m (xs.map f) (f x) := by
  by_cases h : m < xs.length + 1
  · by_cases hm : 0 < m
    · rw [dAppend_eq_of_pos hm, dAppend_eq_of_pos hm]
      simp only [List.map_append, List.map_drop, List.length_map, List.map_cons,
        List.map_nil]
    · have hm0 : m = 0 := by omega
      subst hm0
      rw [dAppend_zero, dAppend_zero]
      rfl
  · rw [dAppend_eq_of_pos (by omega), dAppend_eq_of_pos (by omega)]
    simp only [List.map_append, List.map_drop, List.length_map, List.map_cons,
      List.map_nil]

theorem pairwise_lt_of_getLast? {ds : List ℕ} (hp : ds.Pairwise (· < ·))
    (hd : ds.getLast? = some d) : ∀ x ∈ ds, x ≤ d := by
  induction ds with
  | nil => simp at hd
  | cons a tl ih =>
      intro x hx
      cases tl with
      | nil =>
          simp at hd hx
          omega
      | cons b tl' =>
          rw [List.getLast?_cons_cons] at hd
          rcases List.mem_cons.mp hx with rfl | hx'
          · have hmem : d ∈ b :: tl' := List.mem_of_getLast?_eq_some hd
            have := (List.pairwise_cons.mp hp).1 d hmem
            omega
          · exact ih (List.pairwise_cons.mp hp).2 hd x hx'

theorem concat_getLast?_eq_self {l : List α} (h : l.getLast? = some a) :
    l.dropLast ++ [a] = l :=
  List.dropLast_append_getLast? a h

/-! ## Lemmas about association lists -/

theorem alookup_aupdate_self (f : α → α) (l : List (ℕ × α)) (n : ℕ) :
    alookup (aupdate f l n) n = (alookup l n).map f := by
  induction l with
  | nil => rfl
  | cons p rest ih =>
      obtain ⟨k, v⟩ := p
      by_cases hk : k = n <;> simp [aupdate, alookup, hk, ih]

theorem alookup_aupdate_ne (f : α → α) (l : List (ℕ × α)) (hm : m ≠ n) :
    alookup (aupdate f l n) m = alookup l m := by
  induction l with
  | nil => rfl
  | cons p rest ih =>
      obtain ⟨k, v⟩ := p
      by_cases hk : k = n
      · subst hk
        have hkm : ¬(k = m) := fun h => hm (h ▸ rfl)
        simp [aupdate, alookup, hkm, ih]
      · by_cases hkm : k = m <;> simp [aupdate, alookup, hk, hkm, hm, ih]

theorem aupdate_map_fst (f : α → α) (l : List (ℕ × α)) (n : ℕ) :
    (aupdate f l n).map Prod.fst = l.map Prod.fst := by
  induction l with
  | nil => rfl
  | cons p rest ih =>
      obtain ⟨k, v⟩ := p
      by_cases hk : k = n <;> simp [aupdate, hk, ih]

theorem alookup_isSome_of_mem (h : n ∈ l.map Prod.fst) : (alookup l n).isSome := by
  induction l with
  | nil => simp at h
  | cons p rest ih =>
      obtain ⟨k, v⟩ := p
      by_cases hk : k = n
      · simp [alookup, hk]
      · rw [List.map_cons] at h
        rcases List.mem_cons.mp h with h | h
        · exact absurd h.symm hk
        · simpa [alookup, hk] using ih h

theorem aupdate_of_not_mem (f : α → α) (h : n ∉ l.map Prod.fst) : aupdate f l n = l := by
  induction l with
  | nil => rfl
  | cons p rest ih =>
      obtain ⟨k, v⟩ := p
      rw [List.map_cons] at h
      have h1 : ¬(k = n) := fun hh => h (List.mem_cons.mpr (Or.inl hh.symm))
      have h2 : n ∉ rest.map Prod.fst := fun hh => h (List.mem_cons.mpr (Or.inr hh))
      simp [aupdate, h1, ih h2]

theorem aupdate_eq_self (f : α → α) (hnd : (l.map Prod.fst).Nodup)
    (hf : ∀ v, alookup l n = some v → f v = v) : aupdate f l n = l := by
  induction l with
  | nil => rfl
  | cons p rest ih =>
      obtain ⟨k, v⟩ := p
      simp only [List.map_cons, List.nodup_cons] at hnd
      by_cases hk : k = n
      · subst hk
        have hv : f v = v := hf v (by simp [alookup])
        have : aupdate f rest k = rest := aupdate_of_not_mem f hnd.1
        simp [aupdate, hv, this]
      · simp only [aupdate, if_neg hk]
        congr 1
        exact ih hnd.2 (fun w hw => hf w (by simpa [alookup, hk] using hw))

/-! ## Lemmas about `sortedDedup` -/

theorem mem_insertSorted {l : List ℕ} : x ∈ insertSorted n l ↔ x = n ∨ x ∈ l := by
  induction l with
  | nil => simp [insertSorted]
  | cons m rest ih =>
      unfold insertSorted
      by_cases h1 : n < m
      · simp only [if_pos h1, List.mem_cons]
      · by_cases h2 : n = m
        · subst h2
          simp [h1]
        · simp only [if_neg h1, if_neg h2, List.mem_cons, ih]
          tauto

theorem insertSorted_pairwise {l : List ℕ} (h : l.Pairwise (· < ·)) :
    (insertSorted n l).Pairwise (· < ·) := by
  induction l with
  | nil => simp [insertSorted]
  | cons m rest ih =>
      rw [List.pairwise_cons] at h
      unfold insertSorted
      split
      · next hlt =>
          rw [List.pairwise_cons]
          refine ⟨?_, List.pairwise_cons.mpr h⟩
          intro a ha
          rcases List.mem_cons.mp ha with rfl | ha'
          · omega
          · have := h.1 a ha'
            omega
      · split
        · next => exact List.pairwise_cons.mpr h
        · next hlt heq =>
            rw [List.pairwise_cons]
            refine ⟨?_, ih h.2⟩
            intro a ha
            rcases mem_insertSorted.mp ha with rfl | ha'
            · omega
            · exact h.1 a ha'

theorem sortedDedup_pairwise (l : List ℕ) : (sortedDedup l).Pairwise (· < ·) := by
  induction l with
  | nil => exact List.Pairwise.nil
  | cons a rest ih => exact insertSorted_pairwise ih

theorem sortedDedup_nodup (l : List ℕ) : (sortedDedup l).Nodup :=
  (sortedDedup_pairwise l).imp Nat.ne_of_lt

/-! ## Structural lemmas about `_update_ma` / `_update_macd` -/

theorem update_ma_queue (s : KLineQueue) (n : ℕ) (c : Bool) :
    (s.update_ma n c).queue = s.queue := by
  unfold KLineQueue.update_ma
  split <;> rfl

theorem update_ma_maxlen (s : KLineQueue) (n : ℕ) (c : Bool) :
    (s.update_ma n c).maxlen = s.maxlen := by
  unfold KLineQueue.update_ma
  split <;> rfl

theorem update_ma_ma_list (s : KLineQueue) (n : ℕ) (c : Bool) :
    (s.update_ma n c).ma_list = s.ma_list := by
  unfold KLineQueue.update_ma
  split <;> rfl

theorem update_ma_period (s : KLineQueue) (n : ℕ) (c : Bool) :
    (s.update_ma n c).period = s.period := by
  unfold KLineQueue.update_ma
  split <;> rfl

theorem update_ma_buffer_maxlen (s : KLineQueue) (n : ℕ) (c : Bool) :
    (s.update_ma n c).buffer_maxlen = s.buffer_maxlen := by
  unfold KLineQueue.update_ma
  split <;> rfl

theorem update_ma_tick_buffer (s : KLineQueue) (n : ℕ) (c : Bool) :
    (s.update_ma n c).tick_buffer = s.tick_buffer := by
  unfold KLineQueue.update_ma
  split <;> rfl

theorem update_ma_macd (s : KLineQueue) (n : ℕ) (c : Bool) :
    (s.update_ma n c).macd = s.macd := by
  unfold KLineQueue.update_ma
  split <;> rfl

theorem update_ma_macd_fastperiod (s : KLineQueue) (n : ℕ) (c : Bool) :
    (s.update_ma n c).macd_fastperiod = s.macd_fastperiod := by
  unfold KLineQueue.update_ma
  split <;> rfl

theorem update_ma_macd_slowperiod (s : KLineQueue) (n : ℕ) (c : Bool) :
    (s.update_ma n c).macd_slowperiod = s.macd_slowperiod := by
  unfold KLineQueue.update_ma
  split <;> rfl

theorem update_ma_macd_signalperiod (s : KLineQueue) (n : ℕ) (c : Bool) :
    (s.update_ma n c).macd_signalperiod = s.macd_signalperiod := by
  unfold KLineQueue.update_ma
  split <;> rfl

theorem update_ma_keys (s : KLineQueue) (n : ℕ) (c : Bool) :
    (s.update_ma n c).ma_queues.map Prod.fst = s.ma_queues.map Prod.fst := by
  unfold KLineQueue.update_ma
  split
  · rfl
  · exact aupdate_map_fst _ _ _

theorem update_ma_keys_r (s : KLineQueue) (n : ℕ) (c : Bool) :
    (s.update_ma n c).ma_r_queues.map Prod.fst = s.ma_r_queues.map Prod.fst := by
  unfold KLineQueue.update_ma
  split
  · rfl
  · exact aupdate_map_fst _ _ _

theorem update_ma_alookup_self (s : KLineQueue) (n : ℕ) (c : Bool) :
    alookup (s.update_ma n c).ma_queues n
      = (alookup s.ma_queues n).map (maStep s.queue s.maxlen n c) := by
  unfold KLineQueue.update_ma maStep
  split
  · cases alookup s.ma_queues n <;> rfl
  · rw [alookup_aupdate_self]

theorem update_ma_alookup_self_r (s : KLineQueue) (n : ℕ) (c : Bool) :
    alookup (s.update_ma n c).ma_r_queues n
      = (alookup s.ma_r_queues n).map (maStepR s.queue s.maxlen n c) := by
  unfold KLineQueue.update_ma maStepR
  split
  · cases alookup s.ma_r_queues n <;> rfl
  · rw [alookup_aupdate_self]

theorem update_ma_alookup_ne (s : KLineQueue) (c : Bool) (h : N ≠ n) :
    alookup (s.update_ma n c).ma_queues N = alookup s.ma_queues N := by
  unfold KLineQueue.update_ma
  split
  · rfl
  · exact alookup_aupdate_ne _ _ h

theorem update_ma_alookup_ne_r (s : KLineQueue) (c : Bool) (h : N ≠ n) :
    alookup (s.update_ma n c).ma_r_queues N = alookup s.ma_r_queues N := by
  unfold KLineQueue.update_ma
  split
  · rfl
  · exact alookup_aupdate_ne _ _ h

theorem maFold_proj {β : Sort _} (f : KLineQueue → β)
    (hf : ∀ st n, f (st.update_ma n c) = f st) :
    ∀ (L : List ℕ) (s : KLineQueue), f (maFold c L s) = f s := by
  intro L
  induction L with
  | nil => intro s; rfl
  | cons n rest ih =>
      intro s
      rw [maFold, List.foldl_cons, ← maFold, ih, hf]

theorem maFold_alookup_not_mem (c : Bool) (L : List ℕ) (s : KLineQueue) (hN : N ∉ L) :
    alookup (maFold c L s).ma_queues N = alookup s.ma_queues N := by
  induction L generalizing s with
  | nil => rfl
  | cons n rest ih =>
      rw [maFold, List.foldl_cons, ← maFold]
      rw [ih _ (fun h => hN (List.mem_cons.mpr (Or.inr h)))]
      exact update_ma_alookup_ne s c (fun h => hN (List.mem_cons.mpr (Or.inl h)))

theorem maFold_alookup_not_mem_r (c : Bool) (L : List ℕ) (s : KLineQueue) (hN : N ∉ L) :
    alookup (maFold c L s).ma_r_queues N = alookup s.ma_r_queues N := by
  induction L generalizing s with
  | nil => rfl
  | cons n rest ih =>
      rw [maFold, List.foldl_cons, ← maFold]
      rw [ih _ (fun h => hN (List.mem_cons.mpr (Or.inr h)))]
      exact update_ma_alookup_ne_r s c (fun h => hN (List.mem_cons.mpr (Or.inl h)))

theorem maFold_alookup (c : Bool) (L : List ℕ) (s : KLineQueue) (hnd : L.Nodup)
    (hN : N ∈ L) :
    alookup (maFold c L s).ma_queues N
      = (alookup s.ma_queues N).map (maStep s.queue s.maxlen N c) := by
  induction L generalizing s with
  | nil => simp at hN
  | cons n rest ih =>
      rw [maFold, List.foldl_cons, ← maFold]
      rcases List.mem_cons.mp hN with rfl | hN'
      · have hrest : N ∉ rest := (List.nodup_cons.mp hnd).1
        rw [maFold_alookup_not_mem c rest _ hrest]
        exact update_ma_alookup_self s N c
      · by_cases hNn : N = n
        · subst hNn
          have hrest : N ∉ rest := (List.nodup_cons.mp hnd).1
          exact absurd hN' hrest
        · rw [ih _ (List.nodup_cons.mp hnd).2 hN', update_ma_alookup_ne s c hNn,
            update_ma_queue, update_ma_maxlen]

theorem maFold_alookup_r (c : Bool) (L : List ℕ) (s : KLineQueue) (hnd : L.Nodup)
    (hN : N ∈ L) :
    alookup (maFold c L s).ma_r_queues N
      = (alookup s.ma_r_queues N).map (maStepR s.queue s.maxlen N c) := by
  induction L generalizing s with
  | nil => simp at hN
  | cons n rest ih =>
      rw [maFold, List.foldl_cons, ← maFold]
      rcases List.mem_cons.mp hN with rfl | hN'
      · have hrest : N ∉ rest := (List.nodup_cons.mp hnd).1
        rw [maFold_alookup_not_mem_r c rest _ hrest]
        exact update_ma_alookup_self_r s N c
      · by_cases hNn : N = n
        · subst hNn
          have hrest : N ∉ rest := (List.nodup_cons.mp hnd).1
          exact absurd hN' hrest
        · rw [ih _ (List.nodup_cons.mp hnd).2 hN', update_ma_alookup_ne_r s c hNn,
            update_ma_queue, update_ma_maxlen]

theorem update_macd_queue (s : KLineQueue) (c : Bool) :
    (s.update_macd c).queue = s.queue := by
  simp only [KLineQueue.update_macd]
  split
  · rfl
  · split <;> rfl

theorem update_macd_tick_buffer (s : KLineQueue) (c : Bool) :
    (s.update_macd c).tick_buffer = s.tick_buffer := by
  simp only [KLineQueue.update_macd]
  split
  · rfl
  · split <;> rfl

theorem update_macd_ma_queues (s : KLineQueue) (c : Bool) :
    (s.update_macd c).ma_queues = s.ma_queues := by
  simp only [KLineQueue.update_macd]
  split
  · rfl
  · split <;> rfl

theorem update_macd_ma_r_queues (s : KLineQueue) (c : Bool) :
    (s.update_macd c).ma_r_queues = s.ma_r_queues := by
  simp only [KLineQueue.update_macd]
  split
  · rfl
  · split <;> rfl

theorem update_macd_ma_list (s : KLineQueue) (c : Bool) :
    (s.update_macd c).ma_list = s.ma_list := by
  simp only [KLineQueue.update_macd]
  split
  · rfl
  · split <;> rfl

theorem update_macd_maxlen (s : KLineQueue) (c : Bool) :
    (s.update_macd c).maxlen = s.maxlen := by
  simp only [KLineQueue.update_macd]
  split
  · rfl
  · split <;> rfl

theorem update_macd_period (s : KLineQueue) (c : Bool) :
    (s.update_macd c).period = s.period := by
  simp only [KLineQueue.update_macd]
  split
  · rfl
  · split <;> rfl

theorem update_macd_buffer_maxlen (s : KLineQueue) (c : Bool) :
    (s.update_macd c).buffer_maxlen = s.buffer_maxlen := by
  simp only [KLineQueue.update_macd]
  split
  · rfl
  · split <;> rfl

theorem update_macd_macd_fastperiod (s : KLineQueue) (c : Bool) :
    (s.update_macd c).macd_fastperiod = s.macd_fastperiod := by
  simp only [KLineQueue.update_macd]
  split
  · rfl
  · split <;> rfl

theorem update_macd_macd_slowperiod (s : KLineQueue) (c : Bool) :
    (s.update_macd c).macd_slowperiod = s.macd_slowperiod := by
  simp only [KLineQueue.update_macd]
  split
  · rfl
  · split <;> rfl

theorem update_macd_macd_of_lt (s : KLineQueue) (c : Bool)
    (h : s.queue.length < 2 * max s.macd_fastperiod s.macd_slowperiod) :
    (s.update_macd c).macd = s.macd := by
  simp only [KLineQueue.update_macd]
  rw [if_pos h]

theorem update_macd_macd_of_ge (s : KLineQueue) (c : Bool)
    (h : ¬s.queue.length < 2 * max s.macd_fastperiod s.macd_slowperiod) :
    (s.update_macd c).macd
      = (match macdTriple s.macd_fastperiod s.macd_slowperiod s.macd_signalperiod
            ((lastN (2 * max s.macd_fastperiod s.macd_slowperiod) s.queue).map
              (fun k => k.close.getD 0)) with
         | none => s.macd
         | some m => if c then dAppend s.maxlen s.macd m else s.macd.dropLast ++ [m]) := by
  simp only [KLineQueue.update_macd]
  rw [if_neg h]
  split <;> rfl

/-! ## Lemmas about `tick_price` and the shape of `tick` -/

theorem tick_price_new (t : Tick) (p : KLinePeriod) (w : ℕ) :
    KLine.tick_price KLine.new t p w =
      ⟨some t.open_, some t.close, some t.high, some t.low, some t.vol,
       some (KLinePeriod.auto_convert_timestamp
         (if t.timestamp ≠ 0 then t.timestamp else w) p), t.is_last_one⟩ := by
  rfl

theorem tick_price_new_truthy (t : Tick) (p : KLinePeriod) (w : ℕ) (h : t.timestamp ≠ 0) :
    KLine.tick_price KLine.new t p w =
      ⟨some t.open_, some t.close, some t.high, some t.low, some t.vol,
       some (KLinePeriod.auto_convert_timestamp t.timestamp p), t.is_last_one⟩ := by
  rw [tick_price_new, if_pos h]

theorem tick_price_cases {k : KLine} {d : ℕ} (t : Tick) (p : KLinePeriod) (w : ℕ)
    (hpd : k.period_date = some d) :
    k.tick_price t p w = k ∨
    k.tick_price t p w =
      { k with
        period_date := some d
        open_ := some (pyOr k.open_ t.open_)
        close := some t.close
        high := some t.high
        low := some t.low
        vol := some t.vol
        is_last_one := t.is_last_one } := by
  simp only [KLine.tick_price, hpd]
  by_cases hb : d ≠ KLinePeriod.auto_convert_timestamp
      (if t.timestamp ≠ 0 then t.timestamp else w) p
  · rw [if_pos hb]
    exact Or.inl rfl
  · rw [if_neg hb]
    exact Or.inr rfl

theorem tick_eq_rollover_empty (s : KLineQueue) (t : Tick) (w : ℕ)
    (h : s.queue.getLast? = none) :
    s.tick t w
      = s.after_queue_update
          (dAppend s.maxlen s.queue (KLine.tick_price KLine.new t s.period w)) t true := by
  simp only [KLineQueue.tick, h]

theorem tick_eq_rollover (s : KLineQueue) (t : Tick) (w : ℕ) {lastK : KLine} {d : ℕ}
    (h1 : s.queue.getLast? = some lastK) (h2 : lastK.period_date = some d)
    (h3 : d < KLinePeriod.auto_convert_timestamp t.timestamp s.period) :
    s.tick t w
      = s.after_queue_update
          (dAppend s.maxlen s.queue (KLine.tick_price KLine.new t s.period w)) t true := by
  simp only [KLineQueue.tick, h1, h2, if_pos h3]

theorem tick_eq_inplace (s : KLineQueue) (t : Tick) (w : ℕ) {lastK : KLine} {d : ℕ}
    (h1 : s.queue.getLast? = some lastK) (h2 : lastK.period_date = some d)
    (h3 : KLinePeriod.auto_convert_timestamp t.timestamp s.period = d) :
    s.tick t w
      = s.after_queue_update (s.queue.dropLast ++ [lastK.tick_price t s.period w]) t false := by
  have h4 : ¬(d < KLinePeriod.auto_convert_timestamp t.timestamp s.period) := by omega
  simp only [KLineQueue.tick, h1, h2, if_neg h4, if_pos h3]

theorem tick_eq_discard (s : KLineQueue) (t : Tick) (w : ℕ) {lastK : KLine} {d : ℕ}
    (h1 : s.queue.getLast? = some lastK) (h2 : lastK.period_date = some d)
    (h3 : KLinePeriod.auto_convert_timestamp t.timestamp s.period < d) :
    s.tick t w = s := by
  have h4 : ¬(d < KLinePeriod.auto_convert_timestamp t.timestamp s.period) := by omega
  have h5 : ¬(KLinePeriod.auto_convert_timestamp t.timestamp s.period = d) := by omega
  simp only [KLineQueue.tick, h1, h2, if_neg h4, if_neg h5]

/-! ## Projections of `after_queue_update` -/

theorem aqu_queue (s : KLineQueue) (q : List KLine) (t : Tick) (c : Bool) :
    (s.after_queue_update q t c).queue = q := by
  unfold KLineQueue.after_queue_update
  rw [update_macd_queue]
  exact maFold_proj (·.queue) (fun st n => update_ma_queue st n _) _ _

theorem aqu_tick_buffer (s : KLineQueue) (q : List KLine) (t : Tick) (c : Bool) :
    (s.after_queue_update q t c).tick_buffer = dAppend s.buffer_maxlen s.tick_buffer t := by
  unfold KLineQueue.after_queue_update
  rw [update_macd_tick_buffer]
  exact maFold_proj (·.tick_buffer) (fun st n => update_ma_tick_buffer st n _) _ _

theorem aqu_ma_list (s : KLineQueue) (q : List KLine) (t : Tick) (c : Bool) :
    (s.after_queue_update q t c).ma_list = s.ma_list := by
  unfold KLineQueue.after_queue_update
  rw [update_macd_ma_list]
  exact maFold_proj (·.ma_list) (fun st n => update_ma_ma_list st n _) _ _

theorem aqu_maxlen (s : KLineQueue) (q : List KLine) (t : Tick) (c : Bool) :
    (s.after_queue_update q t c).maxlen = s.maxlen := by
  unfold KLineQueue.after_queue_update
  rw [update_macd_maxlen]
  exact maFold_proj (·.maxlen) (fun st n => update_ma_maxlen st n _) _ _

theorem aqu_period (s : KLineQueue) (q : List KLine) (t : Tick) (c : Bool) :
    (s.after_queue_update q t c).period = s.period := by
  unfold KLineQueue.after_queue_update
  rw [update_macd_period]
  exact maFold_proj (·.period) (fun st n => update_ma_period st n _) _ _

theorem aqu_buffer_maxlen (s : KLineQueue) (q : List KLine) (t : Tick) (c : Bool) :
    (s.after_queue_update q t c).buffer_maxlen = s.buffer_maxlen := by
  unfold KLineQueue.after_queue_update
  rw [update_macd_buffer_maxlen]
  exact maFold_proj (·.buffer_maxlen) (fun st n => update_ma_buffer_maxlen st n _) _ _

theorem aqu_macd_fastperiod (s : KLineQueue) (q : List KLine) (t : Tick) (c : Bool) :
    (s.after_queue_update q t c).macd_fastperiod = s.macd_fastperiod := by
  unfold KLineQueue.after_queue_update
  rw [update_macd_macd_fastperiod]
  exact maFold_proj (·.macd_fastperiod) (fun st n => update_ma_macd_fastperiod st n _) _ _

theorem aqu_macd_slowperiod (s : KLineQueue) (q : List KLine) (t : Tick) (c : Bool) :
    (s.after_queue_update q t c).macd_slowperiod = s.macd_slowperiod := by
  unfold KLineQueue.after_queue_update
  rw [update_macd_macd_slowperiod]
  exact maFold_proj (·.macd_slowperiod) (fun st n => update_ma_macd_slowperiod st n _) _ _

theorem aqu_keys (s : KLineQueue) (q : List KLine) (t : Tick) (c : Bool) :
    (s.after_queue_update q t c).ma_queues.map Prod.fst = s.ma_queues.map Prod.fst := by
  unfold KLineQueue.after_queue_update
  rw [update_macd_ma_queues]
  exact maFold_proj (fun st => st.ma_queues.map Prod.fst) (fun st n => update_ma_keys st n _) _ _

theorem aqu_keys_r (s : KLineQueue) (q : List KLine) (t : Tick) (c : Bool) :
    (s.after_queue_update q t c).ma_r_queues.map Prod.fst = s.ma_r_queues.map Prod.fst := by
  unfold KLineQueue.after_queue_update
  rw [update_macd_ma_r_queues]
  exact maFold_proj (fun st => st.ma_r_queues.map Prod.fst) (fun st n => update_ma_keys_r st n _) _ _

theorem aqu_alookup (s : KLineQueue) (q : List KLine) (t : Tick) (c : Bool)
    (hnd : s.ma_list.Nodup) (hN : N ∈ s.ma_list) :
    alookup (s.after_queue_update q t c).ma_queues N
      = (alookup s.ma_queues N).map (maStep q s.maxlen N c) := by
  unfold KLineQueue.after_queue_update
  rw [update_macd_ma_queues]
  exact maFold_alookup c _ _ hnd hN

theorem aqu_alookup_r (s : KLineQueue) (q : List KLine) (t : Tick) (c : Bool)
    (hnd : s.ma_list.Nodup) (hN : N ∈ s.ma_list) :
    alookup (s.after_queue_update q t c).ma_r_queues N
      = (alookup s.ma_r_queues N).map (maStepR q s.maxlen N c) := by
  unfold KLineQueue.after_queue_update
  rw [update_macd_ma_r_queues]
  exact maFold_alookup_r c _ _ hnd hN

theorem aqu_macd_of_lt (s : KLineQueue) (q : List KLine) (t : Tick) (c : Bool)
    (h : q.length < 2 * max s.macd_fastperiod s.macd_slowperiod) :
    (s.after_queue_update q t c).macd = s.macd := by
  unfold KLineQueue.after_queue_update
  rw [update_macd_macd_of_lt]
  · exact maFold_proj (·.macd) (fun st n => update_ma_macd st n _) _ _
  · rw [maFold_proj (·.queue) (fun st n => update_ma_queue st n _),
      maFold_proj (·.macd_fastperiod) (fun st n => update_ma_macd_fastperiod st n _),
      maFold_proj (·.macd_slowperiod) (fun st n => update_ma_macd_slowperiod st n _)]
    exact h

theorem aqu_macd_of_ge (s : KLineQueue) (q : List KLine) (t : Tick) (c : Bool)
    (h : ¬q.length < 2 * max s.macd_fastperiod s.macd_slowperiod) :
    (s.after_queue_update q t c).macd
      = (match macdTriple s.macd_fastperiod s.macd_slowperiod s.macd_signalperiod
            ((lastN (2 * max s.macd_fastperiod s.macd_slowperiod) q).map
              (fun k => k.close.getD 0)) with
         | none => s.macd
         | some m => if c then dAppend s.maxlen s.macd m else s.macd.dropLast ++ [m]) := by
  unfold KLineQueue.after_queue_update
  rw [update_macd_macd_of_ge]
  · rw [maFold_proj (·.queue) (fun st n => update_ma_queue st n _),
      maFold_proj (·.macd_fastperiod) (fun st n => update_ma_macd_fastperiod st n _),
      maFold_proj (·.macd_slowperiod) (fun st n => update_ma_macd_slowperiod st n _),
      maFold_proj (·.macd_signalperiod) (fun st n => update_ma_macd_signalperiod st n _),
      maFold_proj (·.macd) (fun st n => update_ma_macd st n _),
      maFold_proj (·.maxlen) (fun st n => update_ma_maxlen st n _)]
  · rw [maFold_proj (·.queue) (fun st n => update_ma_queue st n _),
      maFold_proj (·.macd_fastperiod) (fun st n => update_ma_macd_fastperiod st n _),
      maFold_proj (·.macd_slowperiod) (fun st n => update_ma_macd_slowperiod st n _)]
    exact h

/-! ## The reachable-state invariant of `KLineQueue` -/

theorem concat_dropLast_length {l : List α} (hne : l ≠ []) (x : α) :
    (l.dropLast ++ [x]).length = l.length := by
  have := List.length_pos.mpr hne
  rw [List.length_append, List.length_dropLast]
  simp
  omega

theorem pds_getLast {s : KLineQueue} {ds : List ℕ} {lastK : KLine}
    (hmap : s.queue.map (fun k => k.period_date) = ds.map some)
    (hlast : s.queue.getLast? = some lastK) :
    ∃ d, lastK.period_date = some d ∧ ds.getLast? = some d := by
  have h1 : (s.queue.map (fun k => k.period_date)).getLast? = some lastK.period_date := by
    rw [List.getLast?_map, hlast]
    rfl
  rw [hmap, List.getLast?_map] at h1
  cases hd : ds.getLast? with
  | none => rw [hd] at h1; simp at h1
  | some d =>
      rw [hd] at h1
      simp at h1
      exact ⟨d, h1.symm, rfl⟩

/-- The invariant maintained by `KLineQueue.tick` on every state reachable
from `KLineQueue.__init__`. -/
structure KQInv (s : KLineQueue) : Prop where
  ma_sorted : s.ma_list.Pairwise (· < ·)
  keys : s.ma_queues.map Prod.fst = s.ma_list
  keys_r : s.ma_r_queues.map Prod.fst = s.ma_list
  qlen : s.queue.length ≤ s.maxlen
  pds : ∃ ds : List ℕ,
      s.queue.map (fun k => k.period_date) = ds.map some ∧ ds.Pairwise (· < ·)
  cands : ∀ k ∈ s.queue, k.close.isSome ∧ k.open_.isSome
  ma_last : ∀ N ∈ s.ma_list, 0 < N → N ≤ s.queue.length →
      (alookup s.ma_queues N).bind List.getLast? = some (maValueClose s.queue N) ∧
      (alookup s.ma_r_queues N).bind List.getLast? = some (maValueOpen s.queue N)
  macd_empty : s.queue.length < 2 * max s.macd_fastperiod s.macd_slowperiod → s.macd = []

theorem map_fst_mk_nil (L : List ℕ) :
    (L.map (fun n => (n, ([] : List ℚ)))).map Prod.fst = L := by
  induction L with
  | nil => rfl
  | cons a rest ih => simp only [List.map_cons, ih]

theorem inv_init (p : KLinePeriod) (l : List ℕ) (m : ℕ) : KQInv (KLineQueue.init p l m) :=
  { ma_sorted := sortedDedup_pairwise l
    keys := map_fst_mk_nil (sortedDedup l)
    keys_r := map_fst_mk_nil (sortedDedup l)
    qlen := by simp [KLineQueue.init]
    pds := ⟨[], rfl, List.Pairwise.nil⟩
    cands := by simp [KLineQueue.init]
    ma_last := by
      intro N _ h0 hlen
      simp [KLineQueue.init] at hlen
      omega
    macd_empty := fun _ => rfl }

theorem inv_after_queue_update (s : KLineQueue) (q : List KLine) (t : Tick) (c : Bool)
    (hInv : KQInv s)
    (hlen_le : q.length ≤ s.maxlen)
    (hlen_ge : s.queue.length ≤ q.length)
    (hpds : ∃ ds : List ℕ, q.map (fun k => k.period_date) = ds.map some ∧
        ds.Pairwise (· < ·))
    (hcands : ∀ k ∈ q, k.close.isSome ∧ k.open_.isSome) :
    KQInv (s.after_queue_update q t c) := by
  have hnd : s.ma_list.Nodup := hInv.ma_sorted.imp Nat.ne_of_lt
  refine
    { ma_sorted := ?_, keys := ?_, keys_r := ?_, qlen := ?_, pds := ?_, cands := ?_
      ma_last := ?_, macd_empty := ?_ }
  · rw [aqu_ma_list]
    exact hInv.ma_sorted
  · rw [aqu_keys, aqu_ma_list]
    exact hInv.keys
  · rw [aqu_keys_r, aqu_ma_list]
    exact hInv.keys_r
  · rw [aqu_queue, aqu_maxlen]
    exact hlen_le
  · rw [aqu_queue]
    exact hpds
  · rw [aqu_queue]
    exact hcands
  · intro N hN h0 hlen
    rw [aqu_ma_list] at hN
    rw [aqu_queue] at hlen
    rw [aqu_queue, aqu_alookup s q t c hnd hN, aqu_alookup_r s q t c hnd hN]
    have hm : 0 < s.maxlen := by omega
    have hguard : ¬(q.length < N) := by omega
    obtain ⟨q₀, hq₀⟩ :=
      Option.isSome_iff_exists.mp (alookup_isSome_of_mem (hInv.keys ▸ hN))
    obtain ⟨q₁, hq₁⟩ :=
      Option.isSome_iff_exists.mp (alookup_isSome_of_mem (hInv.keys_r ▸ hN))
    have hstep : ∀ (ql : List ℚ) (v : ℚ),
        (if c = true then dAppend s.maxlen ql v else ql.dropLast ++ [v]).getLast? = some v := by
      intro ql v
      cases c
      · rw [if_neg (by simp), List.getLast?_concat]
      · rw [if_pos rfl, dAppend_getLast? hm]
    rw [hq₀, hq₁]
    simp only [Option.map_some', Option.some_bind, maStep, maStepR, if_neg hguard]
    exact ⟨hstep q₀ _, hstep q₁ _⟩
  · intro h
    rw [aqu_queue, aqu_macd_fastperiod, aqu_macd_slowperiod] at h
    rw [aqu_macd_of_lt s q t c h]
    exact hInv.macd_empty (by omega)

theorem inv_tick (s : KLineQueue) (t : Tick) (w : ℕ) (hInv : KQInv s) :
    KQInv (s.tick t w) := by
  cases hq : s.queue.getLast? with
  | none =>
      have hqe : s.queue = [] := List.getLast?_eq_none_iff.mp hq
      rw [tick_eq_rollover_empty s t w hq]
      refine inv_after_queue_update s _ t true hInv (dAppend_length_le _ _ _)
        (length_le_dAppend_length hInv.qlen _) ?_ ?_
      · refine ⟨dAppend s.maxlen []
          (KLinePeriod.auto_convert_timestamp
            (if t.timestamp ≠ 0 then t.timestamp else w) s.period), ?_, ?_⟩
        · rw [map_dAppend, map_dAppend, hqe]
          rw [tick_price_new]
          rfl
        · exact dAppend_pairwise (by simp)
      · intro k hk
        rcases List.mem_append.mp (mem_dAppend hk) with hk' | hk'
        · exact hInv.cands k hk'
        · simp at hk'
          subst hk'
          rw [tick_price_new]
          exact ⟨rfl, rfl⟩
  | some lastK =>
      obtain ⟨ds, hmap, hsort⟩ := hInv.pds
      obtain ⟨d, hpd, hdsl⟩ := pds_getLast hmap hq
      have hqne : s.queue ≠ [] := by
        intro h
        rw [h] at hq
        cases hq
      rcases lt_trichotomy d (KLinePeriod.auto_convert_timestamp t.timestamp s.period)
        with hlt | heq | hgt
      · have hts : t.timestamp ≠ 0 := by
          intro h0
          rw [h0] at hlt
          simp [KLinePeriod.auto_convert_timestamp] at hlt
        rw [tick_eq_rollover s t w hq hpd hlt]
        refine inv_after_queue_update s _ t true hInv (dAppend_length_le _ _ _)
          (length_le_dAppend_length hInv.qlen _) ?_ ?_
        · refine ⟨dAppend s.maxlen ds
            (KLinePeriod.auto_convert_timestamp t.timestamp s.period), ?_, ?_⟩
          · rw [map_dAppend, hmap, tick_price_new_truthy t s.period w hts, map_dAppend]
          · refine dAppend_pairwise (List.pairwise_append.mpr ⟨hsort, by simp, ?_⟩)
            intro x hx y hy
            simp at hy
            subst hy
            have := pairwise_lt_of_getLast? hsort hdsl x hx
            omega
        · intro k hk
          rcases List.mem_append.mp (mem_dAppend hk) with hk' | hk'
          · exact hInv.cands k hk'
          · simp at hk'
            subst hk'
            rw [tick_price_new_truthy t s.period w hts]
            exact ⟨rfl, rfl⟩
      · rw [tick_eq_inplace s t w hq hpd heq.symm]
        have hmem_last : lastK ∈ s.queue := List.mem_of_getLast?_eq_some hq
        obtain ⟨hKpd, hKc, hKo⟩ :
            (lastK.tick_price t s.period w).period_date = some d ∧
            (lastK.tick_price t s.period w).close.isSome ∧
            (lastK.tick_price t s.period w).open_.isSome := by
          rcases tick_price_cases t s.period w hpd with h | h
          · rw [h]
            exact ⟨hpd, (hInv.cands lastK hmem_last).1, (hInv.cands lastK hmem_last).2⟩
          · rw [h]
            exact ⟨rfl, rfl, rfl⟩
        refine inv_after_queue_update s _ t false hInv ?_ ?_ ?_ ?_
        · rw [concat_dropLast_length hqne]
          exact hInv.qlen
        · rw [concat_dropLast_length hqne]
        · refine ⟨ds, ?_, hsort⟩
          rw [List.map_append, List.map_dropLast]
          have hlast2 : (s.queue.map (fun k => k.period_date)).getLast? = some (some d) := by
            rw [List.getLast?_map, hq, Option.map_some', hpd]
          calc (s.queue.map (fun k => k.period_date)).dropLast
                ++ [(lastK.tick_price t s.period w).period_date]
              = (s.queue.map (fun k => k.period_date)).dropLast ++ [some d] := by
                rw [hKpd]
            _ = s.queue.map (fun k => k.period_date) := concat_getLast?_eq_self hlast2
            _ = ds.map some := hmap
        · intro k hk
          rcases List.mem_append.mp hk with hk' | hk'
          · exact hInv.cands k ((List.dropLast_sublist s.queue).subset hk')
          · simp at hk'
            subst hk'
            exact ⟨hKc, hKo⟩
      · rw [tick_eq_discard s t w hq hpd hgt]
        exact hInv

/-- Every reachable `KLineQueue` state satisfies the invariant. -/
theorem reachable_inv {s : KLineQueue} (h : s.Reachable) : KQInv s := by
  induction h with
  | init p l m => exact inv_init p l m
  | tick t w _ ih => exact inv_tick _ t w ih

/-! ## Remaining helper lemmas -/

theorem filterMap_of_map_some {f : α → Option β} :
    ∀ {l : List α} {ds : List β}, l.map f = ds.map some → l.filterMap f = ds := by
  intro l
  induction l with
  | nil =>
      intro ds h
      cases ds with
      | nil => rfl
      | cons d dtl => simp at h
  | cons a tl ih =>
      intro ds h
      cases ds with
      | nil => simp at h
      | cons d dtl =>
          simp only [List.map_cons, List.cons.injEq] at h
          rw [List.filterMap_cons, h.1]
          simp only [ih h.2]

theorem tick_proj {β : Sort _} (f : KLineQueue → β)
    (hf : ∀ (s : KLineQueue) (q : List KLine) (t : Tick) (c : Bool),
      f (s.after_queue_update q t c) = f s) :
    ∀ (s : KLineQueue) (t : Tick) (w : ℕ), f (s.tick t w) = f s := by
  intro s t w
  cases hq : s.queue.getLast? with
  | none => rw [tick_eq_rollover_empty s t w hq, hf]
  | some lastK =>
      cases hpd : lastK.period_date with
      | none => simp only [KLineQueue.tick, hq, hpd]
      | some d =>
          rcases lt_trichotomy d (KLinePeriod.auto_convert_timestamp t.timestamp s.period)
            with hlt | heq | hgt
          · rw [tick_eq_rollover s t w hq hpd hlt, hf]
          · rw [tick_eq_inplace s t w hq hpd heq.symm, hf]
          · rw [tick_eq_discard s t w hq hpd hgt]

theorem tick_processed (s : KLineQueue) (t : Tick) (w : ℕ)
    (h : s.queue = [] ∨ ∃ d, s.queue.getLast?.bind (fun k => k.period_date) = some d ∧
        d ≤ KLinePeriod.auto_convert_timestamp t.timestamp s.period) :
    (∃ q, s.tick t w = s.after_queue_update q t true ∧
        q = dAppend s.maxlen s.queue (KLine.tick_price KLine.new t s.period w)) ∨
    (∃ lastK, s.queue.getLast? = some lastK ∧
        s.tick t w = s.after_queue_update (s.queue.dropLast ++ [lastK.tick_price t s.period w])
          t false) := by
  rcases h with hqe | ⟨d, hbind, hle⟩
  · left
    exact ⟨_, tick_eq_rollover_empty s t w (by rw [hqe]; rfl), rfl⟩
  · cases hq : s.queue.getLast? with
    | none => rw [hq] at hbind; cases hbind
    | some lastK =>
        rw [hq] at hbind
        simp only [Option.some_bind] at hbind
        rcases Nat.lt_or_ge d (KLinePeriod.auto_convert_timestamp t.timestamp s.period)
          with hlt | hge
        · left
          exact ⟨_, tick_eq_rollover s t w hq hbind hlt, rfl⟩
        · right
          have heq : KLinePeriod.auto_convert_timestamp t.timestamp s.period = d := by omega
          exact ⟨lastK, rfl, tick_eq_inplace s t w hq hbind heq⟩

theorem auto_retryAux_all_error {outcomes : ℕ → Except E A} {e : E}
    (h : ∀ i, outcomes i = .error e) :
    ∀ (n i : ℕ) (last : Option E), auto_retryAux outcomes (n + 1) i last = .error (some e) := by
  intro n
  induction n with
  | zero =>
      intro i last
      unfold auto_retryAux
      rw [h i]
      rfl
  | succ m ih =>
      intro i last
      unfold auto_retryAux
      rw [h i]
      exact ih (i + 1) (some e)

theorem auto_retry_all_error {outcomes : ℕ → Except E A} {e : E}
    (h : ∀ i, outcomes i = .error e) (n : ℕ) :
    auto_retry outcomes (n + 1) = .error (some e) :=
  auto_retryAux_all_error h n 0 none

theorem auto_retry_first_ok {outcomes : ℕ → Except E A} {a : A}
    (h : outcomes 0 = .ok a) (n : ℕ) : auto_retry outcomes (n + 1) = .ok a := by
  unfold auto_retry auto_retryAux
  rw [h]

/-! ## The claims

Concrete witness evaluations use `decide`; the Batteries rational-arithmetic
kernels are restored to their default reducibility here so that the
`Decidable` instances can evaluate (the kernel re-checks every proof
regardless of reducibility attributes). -/

section ClaimsSection

set_option allowUnsafeReducibility true

attribute [local semireducible] Rat.add Rat.mul Rat.inv Rat.sub

/-- C1: on every reachable `KLineQueue` state with at least `N` stored
candles (for a configured window `N`), the most recent entry of the
window-`N` moving-average series is exactly the arithmetic mean of the last
`N` candles' close prices, the reverse series' most recent entry is the mean
of their open prices, and recomputing the update on the unchanged candles
(`_update_ma` with `new_created_kline=False`) leaves the series
identical. -/
theorem c1_moving_average_last_mean (s : KLineQueue) (hs : s.Reachable)
    (N : ℕ) (hN : N ∈ s.ma_list) (h0 : 0 < N) (hlen : N ≤ s.queue.length) :
    ((alookup s.ma_queues N).bind List.getLast? = some (maValueClose s.queue N) ∧
     (alookup s.ma_r_queues N).bind List.getLast? = some (maValueOpen s.queue N)) ∧
    s.update_ma N false = s := by
  have hInv := reachable_inv hs
  have hma := hInv.ma_last N hN h0 hlen
  refine ⟨hma, ?_⟩
  have hnd : s.ma_list.Nodup := hInv.ma_sorted.imp Nat.ne_of_lt
  have hguard : ¬(s.queue.length < N) := by omega
  obtain ⟨q₀, hq₀⟩ :=
    Option.isSome_iff_exists.mp (alookup_isSome_of_mem (hInv.keys ▸ hN))
  obtain ⟨q₁, hq₁⟩ :=
    Option.isSome_iff_exists.mp (alookup_isSome_of_mem (hInv.keys_r ▸ hN))
  have hc := hma.1
  have ho := hma.2
  rw [hq₀, Option.some_bind] at hc
  rw [hq₁, Option.some_bind] at ho
  have e₀ : aupdate
      (fun q => if (false : Bool) = true then dAppend s.maxlen q (maValueClose s.queue N)
                else q.dropLast ++ [maValueClose s.queue N]) s.ma_queues N
      = s.ma_queues := by
    refine aupdate_eq_self _ (by rw [hInv.keys]; exact hnd) ?_
    intro v hv
    rw [hq₀] at hv
    cases hv
    exact concat_getLast?_eq_self hc
  have e₁ : aupdate
      (fun q => if (false : Bool) = true then dAppend s.maxlen q (maValueOpen s.queue N)
                else q.dropLast ++ [maValueOpen s.queue N]) s.ma_r_queues N
      = s.ma_r_queues := by
    refine aupdate_eq_self _ (by rw [hInv.keys_r]; exact hnd) ?_
    intro v hv
    rw [hq₁] at hv
    cases hv
    exact concat_getLast?_eq_self ho
  show KLineQueue.update_ma s N false = s
  unfold KLineQueue.update_ma
  rw [if_neg hguard]
  show { s with ma_queues := _, ma_r_queues := _ } = s
  rw [e₀, e₁]

/-- C1 witness: a 1-minute series with window 2 after two one-minute ticks. -/
theorem c1_witness :
    ((alookup queueMa2.ma_queues 2).bind List.getLast?
        = some (maValueClose queueMa2.queue 2) ∧
     (alookup queueMa2.ma_r_queues 2).bind List.getLast?
        = some (maValueOpen queueMa2.queue 2)) ∧
    queueMa2.update_ma 2 false = queueMa2 :=
  c1_moving_average_last_mean queueMa2
    (KLineQueue.Reachable.tick _ _ (KLineQueue.Reachable.tick _ _
      (KLineQueue.Reachable.init .MIN_1 [2] 43200)))
    2 (by decide) (by decide) (by decide)

/-- C2 counterexample: after ingesting an out-of-order tick the ring buffer
has *not* grown by one — the source returns before the buffer append. -/
theorem c2_counterexample :
    (queue3.tick tickOld 101).tick_buffer.length = queue3.tick_buffer.length ∧
    ¬((queue3.tick tickOld 101).tick_buffer.length = queue3.tick_buffer.length + 1) := by
  constructor <;> decide

/-- C2 (amended): a tick that causes a rollover or an in-place update is
appended to the ring buffer (evicting the oldest at capacity); an
out-of-order tick is discarded before the buffer append, leaving the ring
buffer unchanged. -/
theorem c2_ring_buffer_amended :
    (∀ (s : KLineQueue) (t : Tick) (wall_clock : ℕ),
       (s.queue = [] ∨ ∃ d, s.queue.getLast?.bind (fun k => k.period_date) = some d ∧
          d ≤ KLinePeriod.auto_convert_timestamp t.timestamp s.period) →
       (s.tick t wall_clock).tick_buffer = dAppend s.buffer_maxlen s.tick_buffer t) ∧
    (∀ (s : KLineQueue) (t : Tick) (wall_clock : ℕ) (d : ℕ),
       s.queue.getLast?.bind (fun k => k.period_date) = some d →
       KLinePeriod.auto_convert_timestamp t.timestamp s.period < d →
       (s.tick t wall_clock).tick_buffer = s.tick_buffer) := by
  constructor
  · intro s t w h
    rcases tick_processed s t w h with ⟨q, heq, _⟩ | ⟨lastK, _, heq⟩ <;>
      rw [heq, aqu_tick_buffer]
  · intro s t w d hbind hlt
    cases hq : s.queue.getLast? with
    | none => rw [hq] at hbind; cases hbind
    | some lastK =>
        rw [hq] at hbind
        simp only [Option.some_bind] at hbind
        rw [tick_eq_discard s t w hq hbind hlt]

/-- C2 witness: a same-bucket tick is buffered; the out-of-order tick is
not. -/
theorem c2_witness :
    (queue3.tick tick3b 55836).tick_buffer
      = dAppend queue3.buffer_maxlen queue3.tick_buffer tick3b ∧
    (queue3.tick tickOld 101).tick_buffer = queue3.tick_buffer :=
  ⟨c2_ring_buffer_amended.1 queue3 tick3b 55836 (Or.inr ⟨55800, by decide, by decide⟩),
   c2_ring_buffer_amended.2 queue3 tickOld 101 55800 (by decide) (by decide)⟩

/-- C3: a tick whose bucket-start is strictly earlier than the last stored
candle's `period_date` leaves the whole series state — every stored candle,
every moving-average entry, every MACD entry (and even the ring buffer) —
unchanged. -/
theorem c3_out_of_order_noop (s : KLineQueue) (t : Tick) (wall_clock : ℕ) (d : ℕ)
    (hlast : s.queue.getLast?.bind (fun k => k.period_date) = some d)
    (hbefore : KLinePeriod.auto_convert_timestamp t.timestamp s.period < d) :
    s.tick t wall_clock = s := by
  cases hq : s.queue.getLast? with
  | none => rw [hq] at hlast; cases hlast
  | some lastK =>
      rw [hq] at hlast
      simp only [Option.some_bind] at hlast
      exact tick_eq_discard s t wall_clock hq hlast hbefore

/-- C3 witness. -/
theorem c3_witness : queue3.tick tickOld 101 = queue3 :=
  c3_out_of_order_noop queue3 tickOld 101 55800 (by decide) (by decide)

/-- C4: on every reachable `KLineQueue` state the stored candles all carry a
bucket time and those bucket times are strictly increasing from oldest to
newest. -/
theorem c4_period_dates_strictly_increasing (s : KLineQueue) (hs : s.Reachable) :
    (∀ k ∈ s.queue, k.period_date.isSome) ∧
    List.Pairwise (· < ·) (s.queue.filterMap (fun k => k.period_date)) := by
  have hInv := reachable_inv hs
  obtain ⟨ds, hmap, hsort⟩ := hInv.pds
  constructor
  · intro k hk
    have hmem : k.period_date ∈ s.queue.map (fun k => k.period_date) :=
      List.mem_map_of_mem _ hk
    rw [hmap] at hmem
    obtain ⟨d, _, hd⟩ := List.mem_map.mp hmem
    rw [← hd]
    rfl
  · rw [filterMap_of_map_some hmap]
    exact hsort

/-- C4 witness. -/
theorem c4_witness :
    (∀ k ∈ queue3.queue, k.period_date.isSome) ∧
    List.Pairwise (· < ·) (queue3.queue.filterMap (fun k => k.period_date)) :=
  c4_period_dates_strictly_increasing queue3
    (KLineQueue.Reachable.tick _ _ (KLineQueue.Reachable.tick _ _
      (KLineQueue.Reachable.tick _ _
        (KLineQueue.Reachable.init .MIN_1 [20, 40, 60] 43200))))

/-- C5: the configured MACD periods are fast=20, slow=40 (so the threshold
`2×max(fast, slow)` is 80); the MACD series of a reachable series stays
empty while fewer than `2×max(fast, slow)` candles are stored; once the
count is at or above the threshold, the freshly recomputed triple is
appended on a rollover and overwrites the last entry on an in-place update,
and the update is skipped when the recomputation yields no triple (NaN
components during warm-up, `none` in the model). -/
theorem c5_macd_warmup_and_update :
    (∀ (s : KLineQueue), s.Reachable →
        s.macd_fastperiod = 20 ∧ s.macd_slowperiod = 40) ∧
    (∀ (s : KLineQueue), s.Reachable →
        s.queue.length < 2 * max s.macd_fastperiod s.macd_slowperiod → s.macd = []) ∧
    (∀ (s : KLineQueue) (t : Tick) (wall_clock : ℕ),
        (s.queue = [] ∨ ∃ d, s.queue.getLast?.bind (fun k => k.period_date) = some d ∧
           d < KLinePeriod.auto_convert_timestamp t.timestamp s.period) →
        2 * max s.macd_fastperiod s.macd_slowperiod ≤ (s.tick t wall_clock).queue.length →
        (s.tick t wall_clock).macd
          = (match macdTriple s.macd_fastperiod s.macd_slowperiod s.macd_signalperiod
                ((lastN (2 * max s.macd_fastperiod s.macd_slowperiod)
                  (s.tick t wall_clock).queue).map (fun k => k.close.getD 0)) with
             | none => s.macd
             | some m => dAppend s.maxlen s.macd m)) ∧
    (∀ (s : KLineQueue) (t : Tick) (wall_clock : ℕ) (d : ℕ),
        s.queue.getLast?.bind (fun k => k.period_date) = some d →
        KLinePeriod.auto_convert_timestamp t.timestamp s.period = d →
        2 * max s.macd_fastperiod s.macd_slowperiod ≤ (s.tick t wall_clock).queue.length →
        (s.tick t wall_clock).macd
          = (match macdTriple s.macd_fastperiod s.macd_slowperiod s.macd_signalperiod
                ((lastN (2 * max s.macd_fastperiod s.macd_slowperiod)
                  (s.tick t wall_clock).queue).map (fun k => k.close.getD 0)) with
             | none => s.macd
             | some m => s.macd.dropLast ++ [m])) := by
  refine ⟨?_, ?_, ?_, ?_⟩
  · intro s hs
    induction hs with
    | init p l m => exact ⟨rfl, rfl⟩
    | tick t w _ ih =>
        rw [tick_proj (·.macd_fastperiod) (fun s q t c => aqu_macd_fastperiod s q t c),
          tick_proj (·.macd_slowperiod) (fun s q t c => aqu_macd_slowperiod s q t c)]
        exact ih
  · intro s hs
    exact (reachable_inv hs).macd_empty
  · intro s t w hro hlen
    have hkey : s.tick t w
        = s.after_queue_update
            (dAppend s.maxlen s.queue (KLine.tick_price KLine.new t s.period w)) t true := by
      rcases hro with h | ⟨d, h1, h2⟩
      · exact tick_eq_rollover_empty s t w (by rw [h]; rfl)
      · cases hq : s.queue.getLast? with
        | none => rw [hq] at h1; cases h1
        | some lastK =>
            rw [hq] at h1
            simp only [Option.some_bind] at h1
            exact tick_eq_rollover s t w hq h1 h2
    rw [hkey] at hlen ⊢
    rw [aqu_queue] at hlen ⊢
    rw [aqu_macd_of_ge s _ t true (by omega)]
    split <;> rfl
  · intro s t w d hbind heq hlen
    cases hq : s.queue.getLast? with
    | none => rw [hq] at hbind; cases hbind
    | some lastK =>
        rw [hq] at hbind
        simp only [Option.some_bind] at hbind
        have hkey := tick_eq_inplace s t w hq hbind heq
        rw [hkey] at hlen ⊢
        rw [aqu_queue] at hlen ⊢
        rw [aqu_macd_of_ge s _ t false (by omega)]
        split <;> rfl

/-- C5 witness: the warm-up invariant at a small reachable state, the
parameter values, and the append/overwrite behaviour at a series holding
eighty candles. -/
theorem c5_witness :
    (queue3.macd_fastperiod = 20 ∧ queue3.macd_slowperiod = 40) ∧
    queue3.macd = [] ∧
    ((queue80.tick tick81 4801).macd
      = (match macdTriple queue80.macd_fastperiod queue80.macd_slowperiod
            queue80.macd_signalperiod
            ((lastN (2 * max queue80.macd_fastperiod queue80.macd_slowperiod)
              (queue80.tick tick81 4801).queue).map (fun k => k.close.getD 0)) with
         | none => queue80.macd
         | some m => dAppend queue80.maxlen queue80.macd m)) ∧
    ((queue80.tick tick80b 4751).macd
      = (match macdTriple queue80.macd_fastperiod queue80.macd_slowperiod
            queue80.macd_signalperiod
            ((lastN (2 * max queue80.macd_fastperiod queue80.macd_slowperiod)
              (queue80.tick tick80b 4751).queue).map (fun k => k.close.getD 0)) with
         | none => queue80.macd
         | some m => queue80.macd.dropLast ++ [m])) :=
  have hreach : queue3.Reachable :=
    KLineQueue.Reachable.tick _ _ (KLineQueue.Reachable.tick _ _
      (KLineQueue.Reachable.tick _ _
        (KLineQueue.Reachable.init .MIN_1 [20, 40, 60] 43200)))
  ⟨c5_macd_warmup_and_update.1 queue3 hreach,
   c5_macd_warmup_and_update.2.1 queue3 hreach (by decide),
   c5_macd_warmup_and_update.2.2.1 queue80 tick81 4801
     (Or.inr ⟨4740, by decide, by decide⟩) (by decide),
   c5_macd_warmup_and_update.2.2.2 queue80 tick80b 4751 4740 (by decide) (by decide)
     (by decide)⟩

/-- C6: `open` is a no-op returning a falsy value (Python `None`) when the
balance before open is non-positive, and likewise when the balance-to-size
conversion yields a falsy (zero) size; `close` outside pseudo mode is a
notified no-op returning `False` when the recorded open volume is unset
(or zero, Python falsy). -/
theorem c6_open_close_guards :
    (∀ (tr : Trader) (side : LongOrShort) (p : ℚ) (env : OpenEnv),
       tr.balance_before_open ≤ 0 → tr.open_ side p env = ⟨tr, none, []⟩) ∧
    (∀ (tr : Trader) (side : LongOrShort) (p : ℚ) (env : OpenEnv),
       0 < tr.balance_before_open → env.volume = 0 →
       tr.open_ side p env = ⟨tr, none, []⟩) ∧
    (∀ (tr : Trader) (p : ℚ) (env : CloseEnv),
       ¬(tr.consider_pseudo_trading = true ∧ tr.pseudo_trading = true) →
       (tr.open_volume = none ∨ tr.open_volume = some 0) →
       tr.close p env = ⟨tr, some false, [.close_volume_error]⟩) := by
  refine ⟨?_, ?_, ?_⟩
  · intro tr side p env h
    unfold Trader.open_
    rw [if_pos h]
  · intro tr side p env hbal hvol
    unfold Trader.open_
    rw [if_neg (not_le.mpr hbal), if_pos hvol]
  · intro tr p env hps hvol
    unfold Trader.close
    rw [if_neg hps, if_pos hvol]

/-- C6 witness. -/
theorem c6_witness :
    Trader.open_ traderZeroBal .LONG 10 envOk = ⟨traderZeroBal, none, []⟩ ∧
    Trader.open_ trader0 .LONG 10 envVolZero = ⟨trader0, none, []⟩ ∧
    Trader.close trader0 10 closeEnv0 = ⟨trader0, some false, [.close_volume_error]⟩ :=
  ⟨c6_open_close_guards.1 traderZeroBal .LONG 10 envOk (by decide),
   c6_open_close_guards.2.1 trader0 .LONG 10 envVolZero (by decide) rfl,
   c6_open_close_guards.2.2 trader0 10 closeEnv0 (by decide) (Or.inl rfl)⟩

/-- C7 counterexample: a placement whose first attempt raises the
`InsufficientMarginAvailable` error *is* retried by `auto_retry` — with the
second attempt succeeding and the order filling, `open` returns `True` and
increments the trade counter, contradicting "the attempt is not retried …
open returns false, and no trader state is changed". -/
theorem c7_counterexample :
    (Trader.open_ trader0 .LONG 10 envMarginOnce).ret = some true ∧
    (Trader.open_ trader0 .LONG 10 envMarginOnce).trader.trade_count
      = trader0.trade_count + 1 := by
  constructor <;> decide

/-- C7 (amended): `auto_retry` does not special-case `InsufficientMargin` —
the placement is retried like any other error (and an attempt succeeding on
retry completes the open normally).  When every bounded attempt raises
`InsufficientMargin`, `open` logs and returns `None` (falsy) *without* a
notification; every other placement error is notified and returns `False`.
In both cases the only surviving state change is `long_or_short`, which was
already assigned the requested side before placement. -/
theorem c7_insufficient_margin_amended :
    (∀ (tr : Trader) (side : LongOrShort) (p : ℚ) (env : OpenEnv),
       0 < tr.balance_before_open → env.volume ≠ 0 →
       ¬(tr.consider_pseudo_trading = true ∧ tr.trade_count < tr.max_pseudo_trading_count) →
       (∀ i, env.place i = .error .insufficientMargin) →
       tr.open_ side p env = ⟨{ tr with long_or_short := some side }, none, []⟩) ∧
    (∀ (tr : Trader) (side : LongOrShort) (p : ℚ) (env : OpenEnv),
       0 < tr.balance_before_open → env.volume ≠ 0 →
       ¬(tr.consider_pseudo_trading = true ∧ tr.trade_count < tr.max_pseudo_trading_count) →
       (∀ i, env.place i = .error .otherError) →
       tr.open_ side p env
         = ⟨{ tr with long_or_short := some side }, some false, [.open_order_error]⟩) := by
  constructor
  · intro tr side p env hbal hvol hps hplace
    have h5 : auto_retry env.place 5 = .error (some .insufficientMargin) :=
      auto_retry_all_error hplace 4
    simp only [Trader.open_, if_neg (not_le.mpr hbal), if_neg hvol, if_neg hps, h5]
  · intro tr side p env hbal hvol hps hplace
    have h5 : auto_retry env.place 5 = .error (some .otherError) :=
      auto_retry_all_error hplace 4
    simp only [Trader.open_, if_neg (not_le.mpr hbal), if_neg hvol, if_neg hps, h5]

/-- C7 witness. -/
theorem c7_witness :
    Trader.open_ trader0 .LONG 10 envMarginAlways
      = ⟨{ trader0 with long_or_short := some .LONG }, none, []⟩ ∧
    Trader.open_ trader0 .LONG 10 envOtherAlways
      = ⟨{ trader0 with long_or_short := some .LONG }, some false, [.open_order_error]⟩ :=
  ⟨c7_insufficient_margin_amended.1 trader0 .LONG 10 envMarginAlways (by decide) (by decide)
     (by decide) (fun _ => rfl),
   c7_insufficient_margin_amended.2 trader0 .LONG 10 envOtherAlways (by decide) (by decide)
     (by decide) (fun _ => rfl)⟩

/-- C8 counterexample: bootstrapping two periods where the second period's
fetch fails clears the candle queues, but the 1-minute period's window-20
moving-average series still holds the entry computed from the twenty
ingested candles — the post-failure state is *not* empty. -/
theorem c8_counterexample :
    (container2.tick_history hist2).2 = false ∧
    ((container2.tick_history hist2).1.get_by_period .MIN_1).map (fun q => q.queue)
      = some [] ∧
    ((container2.tick_history hist2).1.get_by_period .MIN_1).map
        (fun q => alookup q.ma_queues 20)
      = some (some [1]) := by
  refine ⟨?_, ?_, ?_⟩ <;> decide

/-- C8 (amended): when any period's history fetch fails, every period's
candle queue and raw-tick ring buffer are cleared and the error propagates
(all-or-nothing for the *fetched* data), but `clear` leaves the derived
moving-average and MACD series untouched, so entries accumulated before the
failure are retained; after a successful call, a second call returns
immediately without ingesting anything. -/
theorem c8_bootstrap_amended :
    (∀ (c : KLineQueueContainer) (hist : KLinePeriod → Except Unit (List (Tick × ℕ))),
       (c.tick_history hist).2 = false →
       ∀ pq ∈ (c.tick_history hist).1.kline_queue_dict,
         pq.2.queue = [] ∧ pq.2.tick_buffer = []) ∧
    (∀ (c : KLineQueueContainer) (hist : KLinePeriod → Except Unit (List (Tick × ℕ))),
       c.called_history = true → c.tick_history hist = (c, true)) ∧
    (∀ (q : KLineQueue), q.clear.ma_queues = q.ma_queues ∧
       q.clear.ma_r_queues = q.ma_r_queues ∧ q.clear.macd = q.macd) := by
  refine ⟨?_, ?_, ?_⟩
  · intro c hist hflag pq hpq
    unfold KLineQueueContainer.tick_history at hflag hpq
    by_cases hch : c.called_history = true
    · rw [if_pos hch] at hflag
      cases hflag
    · rw [if_neg hch] at hflag hpq
      cases hgo : tick_historyGo hist c.periods c with
      | ok c' =>
          rw [hgo] at hflag
          cases hflag
      | error c' =>
          rw [hgo] at hpq
          obtain ⟨pq', _, hpq'⟩ := List.mem_map.mp hpq
          rw [← hpq']
          exact ⟨rfl, rfl⟩
  · intro c hist h
    unfold KLineQueueContainer.tick_history
    rw [if_pos h]
  · intro q
    exact ⟨rfl, rfl, rfl⟩

/-- C8 witness. -/
theorem c8_witness :
    ((KLineQueue.init .MIN_5 [20, 40, 60] 43200).clear.queue = [] ∧
     (KLineQueue.init .MIN_5 [20, 40, 60] 43200).clear.tick_buffer = []) ∧
    KLineQueueContainer.tick_history containerDone hist2 = (containerDone, true) ∧
    (queue3.clear.ma_queues = queue3.ma_queues ∧
     queue3.clear.ma_r_queues = queue3.ma_r_queues ∧ queue3.clear.macd = queue3.macd) :=
  ⟨c8_bootstrap_amended.1 container2 hist2 (by decide)
     (.MIN_5, (KLineQueue.init .MIN_5 [20, 40, 60] 43200).clear) (by decide),
   c8_bootstrap_amended.2.1 containerDone hist2 rfl,
   c8_bootstrap_amended.2.2 queue3⟩

/-- C9: realized profit is `(close-open)/open` for a long position and
`(open-close)/open` for a short position, and the backtester's
multiplicative compounding reproduces the documented scenario: balance
10000, LONG open 100 / close 110 → 11000, then SHORT open 110 / close 99 →
12100. -/
theorem c9_profit_and_compounding :
    (∀ (tr : Trader) (o c : ℚ), tr.open_price = some o → tr.close_price = some c →
       o ≠ 0 → c ≠ 0 →
       (tr.long_or_short = some .LONG → tr.auto_set_profit.profit = some ((c - o) / o)) ∧
       (tr.long_or_short = some .SHORT → tr.auto_set_profit.profit = some ((o - c) / o))) ∧
    ((((Backtesting.Trade.init none).open_ .LONG 100 none).close 110 none
        none).final_balance = 11000 ∧
     (((((Backtesting.Trade.init none).open_ .LONG 100 none).close 110 none
        none).open_ .SHORT 110 none).close 99 none none).final_balance = 12100) := by
  constructor
  · intro tr o c ho hc ho0 hc0
    have hz : ¬(o = 0 ∨ c = 0) := by tauto
    constructor <;> intro hside <;>
      simp only [Trader.auto_set_profit, ho, hc, if_neg hz, hside]
  · constructor <;> decide

/-- C9 witness. -/
theorem c9_witness :
    traderLong.auto_set_profit.profit = some ((110 - 100) / 100) :=
  (c9_profit_and_compounding.1 traderLong 100 110 rfl rfl (by decide) (by decide)).1 rfl

/-- C10: `Trader.open` never requires the trader to be flat — with the
trading flag already true, a successful open still proceeds, increments the
trade counter again and overwrites the side, open price, open volume and
open time, with no close of the prior position (the close fields, profit
and balance are untouched). -/
theorem c10_open_does_not_require_flat (tr : Trader) (side : LongOrShort) (p : ℚ)
    (env : OpenEnv) (order : OrderInExchange) (oid : ℕ)
    (_htrading : tr.trading = true)
    (hbal : 0 < tr.balance_before_open) (hvol : env.volume ≠ 0)
    (hps : ¬(tr.consider_pseudo_trading = true ∧
        tr.trade_count < tr.max_pseudo_trading_count))
    (hplace : env.place 0 = .ok oid)
    (horder : env.getOrder 0 = .ok (some order))
    (hstatus : order.status = some .FILLED)
    (hdb : tr.write_to_db = false) :
    (tr.open_ side p env).ret = some true ∧
    (tr.open_ side p env).trader.trading = true ∧
    (tr.open_ side p env).trader.trade_count = tr.trade_count + 1 ∧
    (tr.open_ side p env).trader.long_or_short = some side ∧
    (tr.open_ side p env).trader.open_price = some (pyOrQ order.trade_avg_price p) ∧
    (tr.open_ side p env).trader.open_volume
      = some (pyOrQ order.trade_volume (pyOrQ order.volume env.volume)) ∧
    (tr.open_ side p env).trader.open_time = some env.now ∧
    (tr.open_ side p env).trader.close_price = tr.close_price ∧
    (tr.open_ side p env).trader.close_time = tr.close_time ∧
    (tr.open_ side p env).trader.profit = tr.profit ∧
    (tr.open_ side p env).trader.balance_before_open = tr.balance_before_open := by
  have h5 : auto_retry env.place 5 = .ok oid := auto_retry_first_ok hplace 4
  have h10 : auto_retry env.getOrder 10 = .ok (some order) := auto_retry_first_ok horder 9
  have hst : ¬(order.status ≠ some .FILLED) := fun hne => hne hstatus
  simp only [Trader.open_, if_neg (not_le.mpr hbal), if_neg hvol, if_neg hps, h5, h10,
    if_neg hst, hdb]
  simp

/-- C10 witness. -/
theorem c10_witness :
    (traderOpen.open_ .LONG 10 envOk).ret = some true ∧
    (traderOpen.open_ .LONG 10 envOk).trader.trading = true ∧
    (traderOpen.open_ .LONG 10 envOk).trader.trade_count = traderOpen.trade_count + 1 ∧
    (traderOpen.open_ .LONG 10 envOk).trader.long_or_short = some .LONG ∧
    (traderOpen.open_ .LONG 10 envOk).trader.open_price
      = some (pyOrQ orderFilled.trade_avg_price 10) ∧
    (traderOpen.open_ .LONG 10 envOk).trader.open_volume
      = some (pyOrQ orderFilled.trade_volume (pyOrQ orderFilled.volume envOk.volume)) ∧
    (traderOpen.open_ .LONG 10 envOk).trader.open_time = some envOk.now ∧
    (traderOpen.open_ .LONG 10 envOk).trader.close_price = traderOpen.close_price ∧
    (traderOpen.open_ .LONG 10 envOk).trader.close_time = traderOpen.close_time ∧
    (traderOpen.open_ .LONG 10 envOk).trader.profit = traderOpen.profit ∧
    (traderOpen.open_ .LONG 10 envOk).trader.balance_before_open
      = traderOpen.balance_before_open :=
  c10_open_does_not_require_flat traderOpen .LONG 10 envOk orderFilled 7 rfl (by decide)
    (by decide) (by decide) rfl rfl rfl rfl

end ClaimsSection

end CryptoRobot
